import Mathlib

set_option maxRecDepth 100000

/-!
Verification of the report parsing/validation/dispatch core of django-csp-reports.

The development shallowly embeds the code of `cspreports/models.py` and
`cspreports/utils.py`.  The Python `json` module, Django field conversion
(`to_python`) and model validation (`full_clean`) are modelled explicitly,
since the repository's behaviour depends on them:

* JSON values are modelled by the inductive type `Json`.  Numbers are
  modelled as integers (the reports under study carry only integer fields;
  fractional and exponent literals are outside the modelled subset, so the
  modelled decoder accepts a subset of what Python's decoder accepts).
* `json_loads` models `json.loads` (strict mode): the four JSON whitespace
  characters, `null`/`true`/`false`, integer numbers, strings with the
  standard escapes including `\uXXXX` and surrogate pairs (inputs that
  would decode to lone surrogates are outside the modelled subset, as Lean
  characters are unicode scalar values), arrays and objects.  Objects are
  decoded with Python `dict` semantics: on a duplicate key the first
  occurrence keeps its position and the value is overwritten.
* `json_dumps` models `json.dumps(x, indent=4, sort_keys=True,
  separators=(',', ': '))` as used by `format_report` and with
  `ensure_ascii=True` (the Python default): members sorted by key
  (code-point order), 4-space indentation, non-ASCII and control
  characters escaped as `\uXXXX` (lowercase hex, surrogate pairs above
  the BMP).
* Raw request bodies are modelled as text; byte-level charset decoding
  (`bytes.decode`) is outside the model.
-/

/-- JSON values as produced by `json.loads` (numbers restricted to integers). -/
inductive Json where
  | null
  | bool (b : Bool)
  | num (n : Int)
  | str (s : String)
  | arr (elems : List Json)
  | obj (members : List (String × Json))

namespace Json

/-- Python `dict.get` on a decoded JSON object (member lists hold at most one
binding per key, as guaranteed by the decoder). -/
def dictGet : List (String × Json) → String → Option Json
  | [], _ => none
  | (k, v) :: rest, key => if k = key then some v else dictGet rest key

end Json

/-- The four whitespace characters skipped by Python's JSON decoder. -/
def isJsonWs (c : Char) : Bool :=
  c = ' ' || c = '\t' || c = '\n' || c = '\r'

/-- Skip JSON whitespace. -/
def skipWs : List Char → List Char
  | [] => []
  | c :: rest => if isJsonWs c then skipWs rest else c :: rest

/-- ASCII decimal digit test. -/
def isDigitChar (c : Char) : Bool :=
  48 ≤ c.toNat && c.toNat ≤ 57

/-- Value of a hexadecimal digit, both cases accepted (as in `\uXXXX` escapes). -/
def hexVal? (c : Char) : Option Nat :=
  if 48 ≤ c.toNat && c.toNat ≤ 57 then some (c.toNat - 48)
  else if 97 ≤ c.toNat && c.toNat ≤ 102 then some (c.toNat - 87)
  else if 65 ≤ c.toNat && c.toNat ≤ 70 then some (c.toNat - 55)
  else none

/-- Decoding of the single-character escapes accepted after a backslash. -/
def escDecode (c : Char) : Option Char :=
  if c = '"' then some '"'
  else if c = '\\' then some '\\'
  else if c = '/' then some '/'
  else if c = 'b' then some (Char.ofNat 8)
  else if c = 'f' then some (Char.ofNat 12)
  else if c = 'n' then some '\n'
  else if c = 'r' then some '\r'
  else if c = 't' then some '\t'
  else none

/-- String body decoder (position just after the opening quote), modelling
`json.decoder.py_scanstring` in strict mode: raw control characters are
rejected, escapes are decoded, `\uXXXX` high/low surrogate pairs are
combined.  Returns the decoded content and the input after the closing
quote. -/
def parseStr : List Char → Option (List Char × List Char)
  | [] => none
  | '"' :: rest => some ([], rest)
  | '\\' :: 'u' :: h1 :: h2 :: h3 :: h4 :: rest =>
    match hexVal? h1, hexVal? h2, hexVal? h3, hexVal? h4 with
    | some a, some b, some c, some d =>
      let n := 4096 * a + 256 * b + 16 * c + d
      if 55296 ≤ n && n ≤ 56319 then
        match rest with
        | '\\' :: 'u' :: g1 :: g2 :: g3 :: g4 :: rest2 =>
          match hexVal? g1, hexVal? g2, hexVal? g3, hexVal? g4 with
          | some a', some b', some c', some d' =>
            let m := 4096 * a' + 256 * b' + 16 * c' + d'
            if 56320 ≤ m && m ≤ 57343 then
              (parseStr rest2).map fun p =>
                (Char.ofNat (65536 + 1024 * (n - 55296) + (m - 56320)) :: p.1, p.2)
            else none
          | _, _, _, _ => none
        | _ => none
      else if 56320 ≤ n && n ≤ 57343 then none
      else (parseStr rest).map fun p => (Char.ofNat n :: p.1, p.2)
    | _, _, _, _ => none
  | '\\' :: e :: rest =>
    match escDecode e with
    | some c => (parseStr rest).map fun p => (c :: p.1, p.2)
    | none => none
  | c :: rest =>
    if c.toNat < 32 then none
    else (parseStr rest).map fun p => (c :: p.1, p.2)

/-- Accumulating decimal value of a digit run. -/
def digitsToNat : List Char → Nat → Nat
  | [], acc => acc
  | c :: rest, acc => digitsToNat rest (acc * 10 + (c.toNat - 48))

/-- A head character that would extend the literal into a float in
Python's JSON number grammar. -/
def numContinues : List Char → Bool
  | [] => false
  | c :: _ => c == '.' || c == 'e' || c == 'E'

/-- Integer literal decoder, modelling the integer part of Python's JSON
number grammar `-?(0|[1-9][0-9]*)`.  A literal continuing with `.`/`e`/`E`
would be a float in Python and is outside the modelled subset. -/
def parseNumber (cs : List Char) : Option (Json × List Char) :=
  let signed : Bool × List Char :=
    if cs.head? = some '-' then (true, cs.tail) else (false, cs)
  match signed.2 with
  | [] => none
  | c :: r =>
    if isDigitChar c then
      let body := if c = '0' then ([c], r)
        else (List.takeWhile isDigitChar (c :: r), List.dropWhile isDigitChar (c :: r))
      if numContinues body.2 then none
      else
        let n : Int := digitsToNat body.1 0
        some (.num (if signed.1 then -n else n), body.2)
    else none

/-- Insert a binding with Python `dict` update semantics: an existing key
keeps its position and gets the new value, a new key is appended. -/
def insUpd (ms : List (String × Json)) (k : String) (v : Json) : List (String × Json) :=
  match ms with
  | [] => [(k, v)]
  | (k', v') :: rest => if k' = k then (k', v) :: rest else (k', v') :: insUpd rest k v

/-- Build a `dict` from decoded members in decode order. -/
def dictify (ms : List (String × Json)) : List (String × Json) :=
  ms.foldl (fun acc m => insUpd acc m.1 m.2) []

mutual

/-- Fuel-driven JSON value decoder (the fuel bounds recursion and is chosen
large enough by `json_loads`): literals, strings, arrays, objects and
numbers, dispatched on the first character as Python's scanner does. -/
def parseVal : Nat → List Char → Option (Json × List Char)
  | 0, _ => none
  | f + 1, cs =>
    match cs with
    | [] => none
    | c :: cs1 =>
      if c = 'n' then
        if cs1.take 3 = ['u', 'l', 'l'] then some (.null, cs1.drop 3) else none
      else if c = 't' then
        if cs1.take 3 = ['r', 'u', 'e'] then some (.bool true, cs1.drop 3) else none
      else if c = 'f' then
        if cs1.take 4 = ['a', 'l', 's', 'e'] then some (.bool false, cs1.drop 4) else none
      else if c = '"' then (parseStr cs1).map fun p => (.str p.1.asString, p.2)
      else if c = '[' then
        if (skipWs cs1).head? = some ']' then some (.arr [], (skipWs cs1).tail)
        else (parseElemsAux f (skipWs cs1)).map fun p => (.arr p.1, p.2)
      else if c = Char.ofNat 123 then
        if (skipWs cs1).head? = some (Char.ofNat 125) then some (.obj [], (skipWs cs1).tail)
        else (parseMembersAux f (skipWs cs1)).map fun p => (.obj (dictify p.1), p.2)
      else parseNumber cs

/-- Elements of a non-empty array, starting at the first element. -/
def parseElemsAux : Nat → List Char → Option (List Json × List Char)
  | 0, _ => none
  | f + 1, cs =>
    match parseVal f cs with
    | none => none
    | some (j, r) =>
      let r1 := skipWs r
      if r1.head? = some ',' then (parseElemsAux f (skipWs r1.tail)).map fun p => (j :: p.1, p.2)
      else if r1.head? = some ']' then some ([j], r1.tail)
      else none

/-- Members of a non-empty object, starting at the first key. -/
def parseMembersAux : Nat → List Char → Option (List (String × Json) × List Char)
  | 0, _ => none
  | f + 1, cs =>
    if cs.head? = some '"' then
      match parseStr cs.tail with
      | none => none
      | some (k, r) =>
        let r1 := skipWs r
        if r1.head? = some ':' then
          match parseVal f (skipWs r1.tail) with
          | none => none
          | some (v, r3) =>
            let r4 := skipWs r3
            if r4.head? = some ',' then
              (parseMembersAux f (skipWs r4.tail)).map fun p => ((k.asString, v) :: p.1, p.2)
            else if r4.head? = some (Char.ofNat 125) then some ([(k.asString, v)], r4.tail)
            else none
        else none
    else none

end

/-- Model of `json.loads` on text input (whole-input decode). -/
def json_loads (s : String) : Option Json :=
  match parseVal (s.toList.length + 1) (skipWs s.toList) with
  | some (j, rest) => if skipWs rest = [] then some j else none
  | none => none

/-- Code-point lexicographic order on character lists: the order Python uses
to compare strings, hence the order of `sort_keys=True`. -/
def charListLe : List Char → List Char → Bool
  | [], _ => true
  | _ :: _, [] => false
  | c1 :: t1, c2 :: t2 =>
    if c1.toNat < c2.toNat then true
    else if c2.toNat < c1.toNat then false
    else charListLe t1 t2

/-- Key order used when serializing object members with `sort_keys=True`. -/
def keyLe (a b : String × Json) : Prop := charListLe a.1.toList b.1.toList = true

instance : DecidableRel keyLe := fun _ _ => inferInstanceAs (Decidable (_ = true))

/-- Lowercase hexadecimal digit, as produced by Python's `'\\u%04x'`. -/
def hexDigit (d : Nat) : Char :=
  if d < 10 then Char.ofNat (48 + d) else Char.ofNat (87 + d)

/-- Four lowercase hex digits of `n % 65536`. -/
def hex4 (n : Nat) : List Char :=
  [hexDigit (n / 4096 % 16), hexDigit (n / 256 % 16), hexDigit (n / 16 % 16), hexDigit (n % 16)]

/-- Serialization of one character under `ensure_ascii=True`: the short
escapes, `\u00xx` for other control characters, printable ASCII verbatim,
`\uxxxx` for other BMP characters and surrogate pairs above the BMP. -/
def escChar (c : Char) : List Char :=
  if c = '"' then ['\\', '"']
  else if c = '\\' then ['\\', '\\']
  else if c.toNat = 8 then ['\\', 'b']
  else if c.toNat = 12 then ['\\', 'f']
  else if c = '\n' then ['\\', 'n']
  else if c = '\r' then ['\\', 'r']
  else if c = '\t' then ['\\', 't']
  else if c.toNat < 32 || (127 ≤ c.toNat && c.toNat ≤ 65535) then '\\' :: 'u' :: hex4 c.toNat
  else if 65536 ≤ c.toNat then
    '\\' :: 'u' :: hex4 (55296 + (c.toNat - 65536) / 1024) ++
      '\\' :: 'u' :: hex4 (56320 + (c.toNat - 65536) % 1024)
  else [c]

/-- Serialization of string content. -/
def escStr : List Char → List Char
  | [] => []
  | c :: rest => escChar c ++ escStr rest

/-- A quoted, escaped JSON string literal. -/
def serStr (s : String) : List Char :=
  '"' :: escStr s.toList ++ ['"']

/-- Decimal digits of a natural number, most significant first
(fuel-driven so that it computes by kernel reduction). -/
def natCharsCore : Nat → Nat → List Char → List Char
  | 0, _, acc => acc
  | f + 1, n, acc =>
    if n < 10 then Char.ofNat (48 + n % 10) :: acc
    else natCharsCore f (n / 10) (Char.ofNat (48 + n % 10) :: acc)

/-- Python `str` of a non-negative integer. -/
def natChars (n : Nat) : List Char :=
  natCharsCore (n + 1) n []

/-- Python `str` of an integer. -/
def intChars : Int → List Char
  | .ofNat m => natChars m
  | .negSucc m => '-' :: natChars (m + 1)

/-- Newline plus the 4-space-per-level indentation of `indent=4`. -/
def nlIndent (d : Nat) : List Char :=
  '\n' :: List.replicate (4 * d) ' '

mutual

/-- Serialization of a value whose object members are already in output
order (see `sortKeys`), at nesting depth `d`, following
`json.dumps(x, indent=4, sort_keys=True, separators=(',', ': '))`. -/
def serVal : Json → Nat → List Char
  | .null, _ => ['n', 'u', 'l', 'l']
  | .bool true, _ => ['t', 'r', 'u', 'e']
  | .bool false, _ => ['f', 'a', 'l', 's', 'e']
  | .num n, _ => intChars n
  | .str s, _ => serStr s
  | .arr [], _ => ['[', ']']
  | .arr (x :: xs), d =>
    '[' :: (nlIndent (d + 1) ++ serElems (x :: xs) (d + 1) ++ nlIndent d ++ [']'])
  | .obj [], _ => ['{', '}']
  | .obj (m :: ms), d =>
    '{' :: (nlIndent (d + 1) ++ serMembers (m :: ms) (d + 1) ++ nlIndent d ++ ['}'])

/-- Array elements joined by `",\n" ++ indent`. -/
def serElems : List Json → Nat → List Char
  | [], _ => []
  | [x], d => serVal x d
  | x :: y :: ys, d => serVal x d ++ ',' :: nlIndent d ++ serElems (y :: ys) d

/-- Object members `"key": value` joined by `",\n" ++ indent`. -/
def serMembers : List (String × Json) → Nat → List Char
  | [], _ => []
  | [(k, v)], d => serStr k ++ ':' :: ' ' :: serVal v d
  | (k, v) :: m :: ms, d =>
    serStr k ++ ':' :: ' ' :: serVal v d ++ ',' :: nlIndent d ++ serMembers (m :: ms) d

end

mutual

/-- Recursively put object members into the `sort_keys=True` output order. -/
def sortKeys : Json → Json
  | .null => .null
  | .bool b => .bool b
  | .num n => .num n
  | .str s => .str s
  | .arr xs => .arr (sortKeysList xs)
  | .obj ms => .obj (List.insertionSort keyLe (sortKeysMembers ms))

def sortKeysList : List Json → List Json
  | [] => []
  | x :: xs => sortKeys x :: sortKeysList xs

def sortKeysMembers : List (String × Json) → List (String × Json)
  | [] => []
  | (k, v) :: ms => (k, sortKeys v) :: sortKeysMembers ms

end

/-- Model of `json.dumps(x, indent=4, sort_keys=True, separators=(',', ': '))`. -/
def json_dumps (j : Json) : String :=
  (serVal (sortKeys j) 0).asString

/-- `cspreports.utils.format_report`: pretty-print the payload if it is
valid JSON, otherwise a sentinel header followed by the raw text. -/
def format_report (jsn : String) : String :=
  match json_loads jsn with
  | some j => json_dumps j
  | none => "Invalid JSON. Raw dump is below.\n\n" ++ jsn

/-!
## `cspreports/models.py`

`CSPReport.from_message` populates a report record from the decoded
`csp-report` object, converting each field with the Django model field's
`to_python`, and computes validity with `full_clean`.  The relevant Django
behaviour is modelled explicitly:

* `TextField.to_python` / `CharField.to_python` return `None` for `None`
  and `str(value)` otherwise (never raising); `str` of decoded JSON
  containers is modelled by `pyRepr` (quote choice and the common escapes;
  the exact repr of exotic control characters is approximated, it is never
  `None` which is all validity depends on).
* `IntegerField.to_python` returns `None` for `None`, `int(value)` for
  booleans, numbers and numeric strings, and raises `ValidationError`
  otherwise (`int()` underscore/sign/whitespace handling included;
  non-ASCII digits are outside the model).
* `full_clean` validates populated fields (choices and max length of
  `disposition`, `MinValueValidator(0)` on the integer fields, `json`
  non-blank) and then the subclass's explicit required-field check.
  Database-backend-dependent maximum-value validators of the positive
  integer fields are outside the model.

Uncaught Python exceptions are modelled by `PyExc`.
-/

/-- Exceptions that `from_message`, `should_ignore_report` and the dispatch
pipeline can let escape. -/
inductive PyExc where
  | typeError
  | attributeError
  | valueError
  deriving DecidableEq

def pyReprBody (q : Char) : List Char → List Char
  | [] => []
  | c :: rest =>
    (if c = '\\' then ['\\', '\\']
     else if c = q then ['\\', q]
     else if c = '\n' then ['\\', 'n']
     else if c = '\r' then ['\\', 'r']
     else if c = '\t' then ['\\', 't']
     else if c.toNat < 32 || c.toNat = 127 then
       '\\' :: 'x' :: [hexDigit (c.toNat / 16 % 16), hexDigit (c.toNat % 16)]
     else [c]) ++ pyReprBody q rest

/-- Python string `repr`: single quotes unless the content holds a single
quote but no double quote; backslash, the quote and the common control
characters escaped (`\xHH` for other controls, approximating Python's
non-printable handling). -/
def pyReprStrChars (cs : List Char) : List Char :=
  let q : Char := if cs.contains '\'' && !cs.contains '"' then '"' else '\''
  q :: pyReprBody q cs ++ [q]


mutual

/-- Python `str` of a decoded JSON value (used by `TextField.to_python` on
non-string input; `None` never reaches it). -/
def pyStr : Json → String
  | .null => "None"
  | .bool true => "True"
  | .bool false => "False"
  | .num n => (intChars n).asString
  | .str s => s
  | .arr xs => (Char.ofNat 91 :: pyReprList xs ++ [Char.ofNat 93]).asString
  | .obj ms => (Char.ofNat 123 :: pyReprMembers ms ++ [Char.ofNat 125]).asString

/-- Python `repr` of a decoded JSON value, as it appears inside `str` of a
container. -/
def pyRepr : Json → List Char
  | .null => ['N', 'o', 'n', 'e']
  | .bool true => ['T', 'r', 'u', 'e']
  | .bool false => ['F', 'a', 'l', 's', 'e']
  | .num n => intChars n
  | .str s => pyReprStrChars s.toList
  | .arr xs => Char.ofNat 91 :: pyReprList xs ++ [Char.ofNat 93]
  | .obj ms => Char.ofNat 123 :: pyReprMembers ms ++ [Char.ofNat 125]

def pyReprList : List Json → List Char
  | [] => []
  | [x] => pyRepr x
  | x :: y :: ys => pyRepr x ++ ',' :: ' ' :: pyReprList (y :: ys)

def pyReprMembers : List (String × Json) → List Char
  | [] => []
  | [(k, v)] => pyReprStrChars k.toList ++ ':' :: ' ' :: pyRepr v
  | (k, v) :: m :: ms =>
    pyReprStrChars k.toList ++ ':' :: ' ' :: pyRepr v ++ ',' :: ' ' :: pyReprMembers (m :: ms)

end

/-- `TextField.to_python` / `CharField.to_python` on a decoded JSON value
(`Json.null` models Python `None`): `none` result means the field is left
`NULL`; never raises. -/
def textToPython : Json → Option String
  | .null => none
  | .str s => some s
  | v => some (pyStr v)

/-- Python whitespace stripped by `int(str)`. -/
def isPySpace (c : Char) : Bool :=
  c = ' ' || c = '\t' || c = '\n' || c = '\r' || c.toNat = 11 || c.toNat = 12

/-- Digit run of `int(str)`: decimal digits with single underscores allowed
between digits. -/
def pyDigits : List Char → Option (List Nat)
  | [] => none
  | [c] => if isDigitChar c then some [c.toNat - 48] else none
  | c :: '_' :: d :: rest =>
    if isDigitChar c && isDigitChar d then (pyDigits (d :: rest)).map ((c.toNat - 48) :: ·)
    else none
  | c :: rest => if isDigitChar c then (pyDigits rest).map ((c.toNat - 48) :: ·) else none

/-- Python `int(str)`: surrounding whitespace, one optional sign, then a
digit run. -/
def pyIntOfStr (s : String) : Option Int :=
  let cs := ((s.toList.dropWhile isPySpace).reverse.dropWhile isPySpace).reverse
  let core : Bool × List Char := match cs with
    | '+' :: r => (false, r)
    | '-' :: r => (true, r)
    | r => (false, r)
  match pyDigits core.2 with
  | some ds =>
    let n : Int := ds.foldl (fun acc d => acc * 10 + d) 0
    some (if core.1 then -n else n)
  | none => none

/-- `IntegerField.to_python` on a decoded JSON value: `some none` for
`None`, `some (some n)` for a successful `int(value)`, `none` for a
`ValidationError` (`int` of a malformed string, list or dict). -/
def intToPython : Json → Option (Option Int)
  | .null => some none
  | .bool b => some (some (if b then 1 else 0))
  | .num n => some (some n)
  | .str s =>
    match pyIntOfStr s with
    | some n => some (some n)
    | none => none
  | .arr _ => none
  | .obj _ => none

/-- The `CSPReport` model record (fields relevant to parsing/validation;
timestamps are assigned by the storage layer and not modelled). -/
structure CSPReport where
  json : String
  user_agent : String := ""
  is_valid : Bool := false
  document_uri : Option String := none
  referrer : Option String := none
  blocked_uri : Option String := none
  violated_directive : Option String := none
  original_policy : Option String := none
  disposition : Option String := none
  effective_directive : Option String := none
  source_file : Option String := none
  status_code : Option Int := none
  line_number : Option Int := none
  column_number : Option Int := none
  deriving DecidableEq

/-- The keys of the `DISPOSITIONS` choices. -/
def dispositionChoices : List String := ["enforce", "report"]

/-- All five required fields converted to non-null values. -/
def CSPReport.requiredNonNull (r : CSPReport) : Bool :=
  r.document_uri.isSome && r.referrer.isSome && r.blocked_uri.isSome &&
    r.violated_directive.isSome && r.original_policy.isSome

/-- Field validation performed by `Model.full_clean` on the populated
fields (blank values are skipped, as Django does for `blank=True`
fields).  Besides the explicit `MinValueValidator(0)` on the three
integer fields, Django (1.7+; the pinned range is 1.8–1.11) adds
backend-range validators from `connection.ops.integer_field_range` to
every `IntegerField` subclass: with the default backend ranges,
`PositiveSmallIntegerField` admits 0–32767 (`status_code`) and
`PositiveIntegerField` admits 0–2147483647 (`line_number`,
`column_number`). -/
def CSPReport.cleanFieldsOk (r : CSPReport) : Bool :=
  decide (r.json ≠ "") &&
  (match r.disposition with
   | some d => decide (d = "") || (decide (d ∈ dispositionChoices) && decide (d.length ≤ 10))
   | none => true) &&
  (match r.status_code with
   | some n => decide (0 ≤ n) && decide (n ≤ 32767)
   | none => true) &&
  (match r.line_number with
   | some n => decide (0 ≤ n) && decide (n ≤ 2147483647)
   | none => true) &&
  (match r.column_number with
   | some n => decide (0 ≤ n) && decide (n ≤ 2147483647)
   | none => true)

/-- `CSPReport.full_clean` succeeds: Django's field validation plus the
override's explicit required-field check. -/
def CSPReport.full_clean_ok (r : CSPReport) : Bool :=
  r.cleanFieldsOk && r.requiredNonNull

/-- `CSPReport.from_message`.  `json.loads` failure and a missing
`csp-report` key are caught (`ValueError`/`KeyError`) and yield the bare
record; subscripting a non-dict decoded value raises `TypeError` and
`.get` on a non-dict `csp-report` member raises `AttributeError`, neither
of which the code catches.  Per-field conversion failures
(`ValidationError`) are swallowed, then `full_clean` recomputes
validity. -/
def CSPReport.from_message (message : String) : Except PyExc CSPReport :=
  let self : CSPReport := { json := message }
  match json_loads message with
  | none => .ok self
  | some (.obj kvs) =>
    match Json.dictGet kvs "csp-report" with
    | none => .ok self
    | some (.obj rkvs) =>
      let get := fun k => (Json.dictGet rkvs k).getD .null
      let r1 := { self with
        document_uri := textToPython (get "document-uri"),
        referrer := textToPython (get "referrer"),
        blocked_uri := textToPython (get "blocked-uri"),
        violated_directive := textToPython (get "violated-directive"),
        original_policy := textToPython (get "original-policy"),
        disposition := textToPython (get "disposition"),
        effective_directive := textToPython (get "effective-directive"),
        source_file := textToPython (get "source-file") }
      let r2 := match intToPython (get "status-code") with
        | some v => { r1 with status_code := v }
        | none => r1
      let r3 := match intToPython (get "line-number") with
        | some v => { r2 with line_number := v }
        | none => r2
      let r4 := match intToPython (get "column-number") with
        | some v => { r3 with column_number := v }
        | none => r3
      .ok { r4 with is_valid := r4.full_clean_ok }
    | some _ => .error .attributeError
  | some _ => .error .typeError

/-!
## `cspreports/utils.py`

The dispatch pipeline, configuration resolver and ignore check.  External
sinks (mail transport, log emission, database write, handler execution)
are modelled as recorded `SinkAction`s; their own failures are outside the
model, which tracks exactly the exceptions arising in the repository's
code (`json.loads` of the ignore check, `getattr(logger, ...)` on a bad
`LOG_LEVEL`, `from_message` on non-dict JSON, `rsplit` unpacking of a
dotted path without a dot).  `import_module`/`getattr` of a well-formed
dotted path is environment interaction and modelled as succeeding.
-/

/-- A value held in the Django settings store. -/
inductive SettingVal where
  | bool (b : Bool)
  | str (s : String)
  | strList (l : List String)
  deriving DecidableEq

/-- The external Django settings store: attribute names to values. -/
def Settings : Type := List (String × SettingVal)

/-- `getattr(settings, name)`: `none` models `AttributeError`. -/
def settingsAttr : Settings → String → Option SettingVal
  | [], _ => none
  | (k, v) :: rest, name => if k = name then some v else settingsAttr rest name

/-- The class-level defaults of `Config`. -/
def configDefault : String → Option SettingVal
  | "EMAIL_ADMINS" => some (.bool true)
  | "LOG" => some (.bool true)
  | "LOG_LEVEL" => some (.str "warning")
  | "SAVE" => some (.bool true)
  | "ADDITIONAL_HANDLERS" => some (.strList [])
  | "IGNORE_BROWSER_EXTENSIONS" => some (.bool false)
  | _ => none

/-- `Config.__getattribute__`: try the `CSP_REPORTS_`-prefixed Django
setting, fall back to the class default (`none` models `AttributeError`
for a name that is neither). -/
def configGet (s : Settings) (name : String) : Option SettingVal :=
  match settingsAttr s ("CSP_REPORTS_" ++ name) with
  | some v => some v
  | none => configDefault name

/-- Python truthiness of a settings value. -/
def SettingVal.truthy : SettingVal → Bool
  | .bool b => b
  | .str s => decide (s ≠ "")
  | .strList l => decide (l ≠ [])

/-- Truthiness of a configuration option, as tested by
`if config.NAME:`. -/
def cfgTruthy (s : Settings) (name : String) : Bool :=
  match configGet s name with
  | some v => v.truthy
  | none => false

/-- A resolved additional handler: the module path and function name
produced by `name.rsplit('.', 1)`. -/
structure Handler where
  module : String
  func : String
  deriving DecidableEq

/-- Walk a reversed character list to the first `'.'`, i.e.
`rsplit('.', 1)`. -/
def rsplitDotAux : List Char → List Char → Option (String × String)
  | [], _ => none
  | '.' :: rest, acc => some (rest.reverse.asString, acc.asString)
  | c :: rest, acc => rsplitDotAux rest (c :: acc)

/-- Resolve one dotted path; `none` models the `ValueError` raised when
unpacking `rsplit` of a name without a dot. -/
def resolveHandler (name : String) : Option Handler :=
  (rsplitDotAux name.toList.reverse []).map fun p => ⟨p.1, p.2⟩

/-- Resolve the dotted paths in order; the first failure propagates and no
assignment to the cache happens. -/
def resolveAll : List String → Option (List Handler)
  | [] => some []
  | n :: rest =>
    match resolveHandler n with
    | some h => (resolveAll rest).map (h :: ·)
    | none => none

/-- One call to `get_additional_handlers`, given the settings store and the
`_additional_handlers` module global (`none` models the initial `None`).
Returns the outcome, the new global, and whether this call performed the
dotted-path resolution to completion. -/
def get_additional_handlers (s : Settings) (cache : Option (List Handler)) :
    Except PyExc (List Handler) × Option (List Handler) × Bool :=
  match cache with
  | some hs => (.ok hs, some hs, false)
  | none =>
    match configGet s "ADDITIONAL_HANDLERS" with
    | some (.strList names) =>
      match resolveAll names with
      | some hs => (.ok hs, some hs, true)
      | none => (.error .valueError, none, false)
    | some (.str v) =>
      -- iterating a string yields one-character names, none of which
      -- survives `rsplit`/`import_module`
      if v = "" then (.ok [], some [], true) else (.error .valueError, none, false)
    | some (.bool _) => (.error .typeError, none, false)
    | none => (.error .typeError, none, false)

/-- The inbound request as consumed by the core: the raw body as text and
the already-defaulted `HTTP_USER_AGENT` header. -/
structure Request where
  body : String
  http_user_agent : String
  deriving DecidableEq

/-- Character-list prefix test. -/
def listStartsWith : List Char → List Char → Bool
  | _, [] => true
  | [], _ :: _ => false
  | c :: cs, p :: ps => c = p && listStartsWith cs ps

/-- Python `str.startswith`. -/
def strStartsWith (s pat : String) : Bool :=
  listStartsWith s.toList pat.toList

/-- `should_ignore_report`: with the toggle off, answer `False` at once;
otherwise decode the body (`ValueError` propagates), call `.get` on the
decoded value (`AttributeError` on a non-dict) and `startswith` on the
`source-file` value (`AttributeError` on a non-string value). -/
def should_ignore_report (s : Settings) (req : Request) : Except PyExc Bool :=
  if cfgTruthy s "IGNORE_BROWSER_EXTENSIONS" = false then .ok false
  else
    match json_loads req.body with
    | none => .error .valueError
    | some (.obj kvs) =>
      match (Json.dictGet kvs "source-file").getD (.str "") with
      | .str sf => .ok (strStartsWith sf "moz-extension://")
      | _ => .error .attributeError
    | some _ => .error .attributeError

/-- An observable action on one of the four sinks. -/
inductive SinkAction where
  | email (subject : String) (message : String)
  | logWrite (level : String) (message : String)
  | saveRecord (r : CSPReport)
  | runHandler (h : Handler) (req : Request)
  deriving DecidableEq

/-- The logging methods `getattr(logger, level)` can reach; anything else
raises `AttributeError` when called. -/
def loggerMethods : List String :=
  ["debug", "info", "warning", "warn", "error", "exception", "critical", "fatal"]

/-- `email_admins`: format the body, prepend the user agent and mail it. -/
def email_admins (req : Request) : SinkAction :=
  .email "CSP Violation Report"
    ("User agent:\n" ++ req.http_user_agent ++ "\n\nReport:\n" ++ format_report req.body)

/-- `log_report`: write the formatted body at the configured level. -/
def log_report (s : Settings) (req : Request) : Except PyExc SinkAction :=
  match configGet s "LOG_LEVEL" with
  | some (.str lvl) =>
    if lvl ∈ loggerMethods then
      .ok (.logWrite lvl ("Content Security Policy violation: " ++ format_report req.body))
    else .error .attributeError
  | _ => .error .typeError

/-- `save_report`: parse the body, attach the user agent, persist. -/
def save_report (req : Request) : Except PyExc SinkAction :=
  match CSPReport.from_message req.body with
  | .ok r => .ok (.saveRecord { r with user_agent := req.http_user_agent })
  | .error e => .error e

/-- Outcome of one dispatch: the sink actions performed in order, the new
`_additional_handlers` global, and the exception that aborted the
pipeline, if any. -/
structure DispatchResult where
  actions : List SinkAction
  cache : Option (List Handler)
  exc : Option PyExc
  deriving DecidableEq

/-- Sink steps 4 (persist) and 5 (custom handlers). -/
def sinksFromSave (s : Settings) (cache : Option (List Handler)) (req : Request)
    (acc : List SinkAction) : DispatchResult :=
  match (if cfgTruthy s "SAVE" then (save_report req).map some else .ok none) with
  | .error e => ⟨acc, cache, some e⟩
  | .ok saveAct =>
    let acc2 := acc ++ saveAct.toList
    if cfgTruthy s "ADDITIONAL_HANDLERS" then
      match get_additional_handlers s cache with
      | (.ok hs, cache', _) => ⟨acc2 ++ hs.map fun h => .runHandler h req, cache', none⟩
      | (.error e, cache', _) => ⟨acc2, cache', some e⟩
    else ⟨acc2, cache, none⟩

/-- Sink steps 2 (email) through 5, in the fixed source order. -/
def runSinks (s : Settings) (cache : Option (List Handler)) (req : Request) : DispatchResult :=
  let acc := if cfgTruthy s "EMAIL_ADMINS" then [email_admins req] else []
  if cfgTruthy s "LOG" then
    match log_report s req with
    | .error e => ⟨acc, cache, some e⟩
    | .ok act => sinksFromSave s cache req (acc ++ [act])
  else sinksFromSave s cache req acc

/-- `process_report`: the ignore check, then the four sink steps. -/
def process_report (s : Settings) (cache : Option (List Handler)) (req : Request) :
    DispatchResult :=
  match should_ignore_report s req with
  | .error e => ⟨[], cache, some e⟩
  | .ok true => ⟨[], cache, none⟩
  | .ok false => runSinks s cache req

/-!
## Claims

Concrete inputs used by counterexamples and witnesses.
-/

/-- A syntactically valid CSP report with all five required fields. -/
def goodReportMsg : String :=
  "\x7b\"csp-report\": \x7b\"document-uri\": \"http://a/\", \"referrer\": \"\", \"blocked-uri\": \"http://b/\", \"violated-directive\": \"script-src\", \"original-policy\": \"default-src self\"\x7d\x7d"

/-- The record `from_message` builds for `goodReportMsg`. -/
def goodReport : CSPReport :=
  ((CSPReport.from_message goodReportMsg).toOption).getD { json := "" }

/-- All five required fields present and convertible, plus a `disposition`
value outside the `DISPOSITIONS` choices. -/
def badDispositionMsg : String :=
  "\x7b\"csp-report\": \x7b\"document-uri\": \"a\", \"referrer\": \"b\", \"blocked-uri\": \"c\", \"violated-directive\": \"d\", \"original-policy\": \"e\", \"disposition\": \"bogus\"\x7d\x7d"

/-- Characterization of the message shapes on which `from_message` returns
normally: undecodable text, or a decoded dict whose `csp-report` member is
absent or itself a dict. -/
def fromMessageTolerates (msg : String) : Bool :=
  match json_loads msg with
  | none => true
  | some (.obj kvs) =>
    match Json.dictGet kvs "csp-report" with
    | none => true
    | some (.obj _) => true
    | some _ => false
  | some _ => false

/-- C1 (counterexample): on `badDispositionMsg` every required field
converts to a non-null value, yet `is_valid` is false — the claimed "iff"
fails because `full_clean` also validates the populated optional
`disposition` against the field's choices. -/
theorem c1_counterexample :
    (CSPReport.from_message badDispositionMsg).map
      (fun r => (r.requiredNonNull, r.is_valid)) = .ok (true, false) := by
  rfl

/-- C1 (amended): for every message on which `from_message` returns a
record, `is_valid` is true iff Django's field validation of the populated
fields succeeds (notably `disposition` among the choices and the integer
fields within their column ranges: `status-code` in 0–32767,
`line-number`/`column-number` in 0–2147483647) and all five required
fields are non-null; optional fields whose conversion failed are left
null and so never affect validity. -/
theorem c1_validity (msg : String) (r : CSPReport)
    (h : CSPReport.from_message msg = .ok r) :
    r.is_valid = (r.cleanFieldsOk && r.requiredNonNull) := by
  unfold CSPReport.from_message at h
  dsimp only [] at h
  repeat' split at h
  all_goals first
    | exact Except.noConfusion h
    | (injection h with h
       subst h
       simp [CSPReport.full_clean_ok, CSPReport.cleanFieldsOk, CSPReport.requiredNonNull])

/-- C1 witness: the amended statement instantiated on a concrete valid
report. -/
theorem c1_validity_witness :
    goodReport.is_valid = (goodReport.cleanFieldsOk && goodReport.requiredNonNull) :=
  c1_validity goodReportMsg goodReport (by rfl)

/-- C2 (counterexample): the message `"3"` is valid JSON whose decoded
value is not an object; `decoded_data['csp-report']` raises `TypeError`,
which `from_message` does not catch. -/
theorem c2_counterexample : CSPReport.from_message "3" = .error .typeError := by
  rfl

/-- C2 (amended): `from_message` returns a record exactly on undecodable
text and on decoded dicts whose `csp-report` member is absent or a dict;
a non-dict decoded value (`TypeError`) or non-dict `csp-report` member
(`AttributeError`) escapes to the caller. -/
theorem c2_tolerance (msg : String) :
    (CSPReport.from_message msg).isOk = fromMessageTolerates msg := by
  unfold CSPReport.from_message fromMessageTolerates
  dsimp only []
  repeat' split
  all_goals rfl

/-- Settings with only the browser-extension toggle enabled. -/
def ignSettings : Settings := [("CSP_REPORTS_IGNORE_BROWSER_EXTENSIONS", .bool true)]

/-- A raw payload whose top-level `source-file` is a Mozilla extension URI. -/
def mozReq : Request := ⟨"\x7b\"source-file\": \"moz-extension://abc\"\x7d", "UA"⟩

/-- C3: with the toggle on and a top-level `source-file` starting with
`moz-extension://`, dispatch performs zero sink actions, leaves the
handler cache untouched and raises nothing. -/
theorem c3_ignored_zero_sinks (s : Settings) (cache : Option (List Handler)) (req : Request)
    (kvs : List (String × Json)) (sf : String)
    (hI : cfgTruthy s "IGNORE_BROWSER_EXTENSIONS" = true)
    (hJ : json_loads req.body = some (.obj kvs))
    (hS : Json.dictGet kvs "source-file" = some (.str sf))
    (hM : strStartsWith sf "moz-extension://" = true) :
    process_report s cache req = ⟨[], cache, none⟩ := by
  simp [process_report, should_ignore_report, hI, hJ, hS, hM]

/-- C3 witness: the ignored dispatch on a concrete extension report. -/
theorem c3_witness : process_report ignSettings none mozReq = ⟨[], none, none⟩ :=
  c3_ignored_zero_sinks ignSettings none mozReq
    [("source-file", .str "moz-extension://abc")] "moz-extension://abc"
    (by rfl) (by rfl) (by rfl) (by rfl)

/-- C8: with the toggle on, an undecodable body makes the ignore check
raise `ValueError` before any sink runs, while `from_message` and
`format_report` tolerate the very same payload. -/
theorem c8_ignore_decode_error (s : Settings) (cache : Option (List Handler)) (req : Request)
    (hI : cfgTruthy s "IGNORE_BROWSER_EXTENSIONS" = true)
    (hJ : json_loads req.body = none) :
    process_report s cache req = ⟨[], cache, some .valueError⟩ ∧
    CSPReport.from_message req.body = .ok { json := req.body } ∧
    format_report req.body = "Invalid JSON. Raw dump is below.\n\n" ++ req.body := by
  refine ⟨?_, ?_, ?_⟩
  · simp [process_report, should_ignore_report, hI, hJ]
  · simp [CSPReport.from_message, hJ]
  · simp [format_report, hJ]

/-- C8 witness: the decode error on a concrete malformed payload. -/
theorem c8_witness :
    process_report ignSettings none ⟨"junk", "UA"⟩ = ⟨[], none, some .valueError⟩ ∧
    CSPReport.from_message "junk" = .ok { json := "junk" } ∧
    format_report "junk" = "Invalid JSON. Raw dump is below.\n\njunk" :=
  c8_ignore_decode_error ignSettings none ⟨"junk", "UA"⟩ (by rfl) (by rfl)

/-- C9: with the toggle off the ignore check answers `False` for every
body, malformed ones included — the body is never decoded on this path. -/
theorem c9_ignore_off_never_decodes (s : Settings) (req : Request)
    (h : cfgTruthy s "IGNORE_BROWSER_EXTENSIONS" = false) :
    should_ignore_report s req = .ok false := by
  simp [should_ignore_report, h]

/-- C9 witness: default settings (toggle off) and an undecodable body. -/
theorem c9_witness :
    should_ignore_report [] ⟨"junk", "UA"⟩ = .ok false ∧ json_loads "junk" = none :=
  ⟨c9_ignore_off_never_decodes [] ⟨"junk", "UA"⟩ (by rfl), by rfl⟩

/-- C10: the ignore check reads only the top-level `source-file` and only
the `moz-extension://` scheme: a payload without the top-level key (even
with one nested under `csp-report`) and any other scheme both answer
`False`, so dispatch proceeds to the sinks. -/
theorem c10_source_file_scope (s : Settings) (cache : Option (List Handler)) (req : Request)
    (kvs : List (String × Json))
    (hI : cfgTruthy s "IGNORE_BROWSER_EXTENSIONS" = true)
    (hJ : json_loads req.body = some (.obj kvs)) :
    (Json.dictGet kvs "source-file" = none →
      should_ignore_report s req = .ok false ∧
      process_report s cache req = runSinks s cache req) ∧
    (∀ sf, Json.dictGet kvs "source-file" = some (.str sf) →
      strStartsWith sf "moz-extension://" = false →
      should_ignore_report s req = .ok false ∧
      process_report s cache req = runSinks s cache req) := by
  constructor
  · intro hS
    have h1 : should_ignore_report s req = .ok false := by
      simp [should_ignore_report, hI, hJ, hS]
      rfl
    exact ⟨h1, by simp [process_report, h1]⟩
  · intro sf hS hM
    have h1 : should_ignore_report s req = .ok false := by
      simp [should_ignore_report, hI, hJ, hS, hM]
    exact ⟨h1, by simp [process_report, h1]⟩

/-- C10 witness: a `source-file` nested under `csp-report` only, and a
Chrome extension scheme, both reported as not ignored. -/
theorem c10_witness :
    (should_ignore_report ignSettings
      ⟨"\x7b\"csp-report\": \x7b\"source-file\": \"moz-extension://abc\"\x7d\x7d", "UA"⟩ = .ok false) ∧
    (should_ignore_report ignSettings
      ⟨"\x7b\"source-file\": \"chrome-extension://abc\"\x7d", "UA"⟩ = .ok false) :=
  ⟨((c10_source_file_scope ignSettings none
      ⟨"\x7b\"csp-report\": \x7b\"source-file\": \"moz-extension://abc\"\x7d\x7d", "UA"⟩
      [("csp-report", .obj [("source-file", .str "moz-extension://abc")])]
      (by rfl) (by rfl)).1 (by rfl)).1,
   ((c10_source_file_scope ignSettings none
      ⟨"\x7b\"source-file\": \"chrome-extension://abc\"\x7d", "UA"⟩
      [("source-file", .str "chrome-extension://abc")]
      (by rfl) (by rfl)).2 "chrome-extension://abc" (by rfl) (by rfl)).1⟩

/-- For a recognized option, `configGet` is the override-or-default
lookup. -/
theorem configGet_known (st : Settings) (name : String) (d : SettingVal)
    (hd : configDefault name = some d) :
    configGet st name = some ((settingsAttr st ("CSP_REPORTS_" ++ name)).getD d) := by
  unfold configGet
  cases h : settingsAttr st ("CSP_REPORTS_" ++ name) <;> simp [h, hd]

/-- C5: each of the six options, on every access, consults the settings
store under its `CSP_REPORTS_`-prefixed name and falls back to the
documented static default exactly; the final conjunct shows a sequence of
accesses under changing stores always reflects the store passed to that
access (nothing is cached). -/
theorem c5_config_resolution (s : Settings) :
    configGet s "EMAIL_ADMINS" =
      some ((settingsAttr s ("CSP_REPORTS_" ++ "EMAIL_ADMINS")).getD (.bool true)) ∧
    configGet s "LOG" =
      some ((settingsAttr s ("CSP_REPORTS_" ++ "LOG")).getD (.bool true)) ∧
    configGet s "LOG_LEVEL" =
      some ((settingsAttr s ("CSP_REPORTS_" ++ "LOG_LEVEL")).getD (.str "warning")) ∧
    configGet s "SAVE" =
      some ((settingsAttr s ("CSP_REPORTS_" ++ "SAVE")).getD (.bool true)) ∧
    configGet s "ADDITIONAL_HANDLERS" =
      some ((settingsAttr s ("CSP_REPORTS_" ++ "ADDITIONAL_HANDLERS")).getD (.strList [])) ∧
    configGet s "IGNORE_BROWSER_EXTENSIONS" =
      some ((settingsAttr s ("CSP_REPORTS_" ++ "IGNORE_BROWSER_EXTENSIONS")).getD (.bool false)) ∧
    ∀ stores : List Settings,
      stores.map (fun st => configGet st "LOG") =
        stores.map (fun st => some ((settingsAttr st ("CSP_REPORTS_" ++ "LOG")).getD (.bool true))) :=
  ⟨configGet_known s _ _ rfl, configGet_known s _ _ rfl, configGet_known s _ _ rfl,
   configGet_known s _ _ rfl, configGet_known s _ _ rfl, configGet_known s _ _ rfl,
   fun _stores => List.map_congr_left fun st _ => configGet_known st _ _ rfl⟩

/-- A run of `get_additional_handlers`, one call per settings store:
the per-call outcomes, the final `_additional_handlers` global, and how
many calls completed the dotted-path resolution. -/
def gahRun : List Settings → Option (List Handler) →
    List (Except PyExc (List Handler)) × Option (List Handler) × Nat
  | [], cache => ([], cache, 0)
  | s :: ss, cache =>
    let step := get_additional_handlers s cache
    let rest := gahRun ss step.2.1
    (step.1 :: rest.1, rest.2.1, (if step.2.2 then 1 else 0) + rest.2.2)

/-- Once the global holds a list, every later call returns it unchanged,
whatever the settings say, and never resolves again. -/
theorem gahRun_cached (ss : List Settings) (hs : List Handler) :
    gahRun ss (some hs) = (ss.map fun _ => .ok hs, some hs, 0) := by
  induction ss with
  | nil => rfl
  | cons s ss ih => simp [gahRun, get_additional_handlers, ih]

/-- A call starting from the empty global either does not complete
resolution and leaves the global empty, or completes it and fills the
global. -/
theorem gah_step_shape (s : Settings) :
    ((get_additional_handlers s none).2.2 = false ∧
      (get_additional_handlers s none).2.1 = none) ∨
    ∃ hs, (get_additional_handlers s none).2.1 = some hs ∧
      (get_additional_handlers s none).2.2 = true := by
  unfold get_additional_handlers
  repeat' split
  all_goals simp_all

/-- C6: over every sequence of calls from process start the dotted-path
resolution completes at most once; once a list is memoized every later
call returns that same list regardless of the then-current settings; by
contrast a plain option such as `LOG` is re-read from the store on every
access. -/
theorem c6_handlers_memoized (ss : List Settings) :
    (gahRun ss none).2.2 ≤ 1 ∧
    (∀ (hs : List Handler) (laterStores : List Settings),
      gahRun laterStores (some hs) = (laterStores.map fun _ => .ok hs, some hs, 0)) ∧
    (∀ st : Settings, configGet st "LOG" =
      some ((settingsAttr st ("CSP_REPORTS_" ++ "LOG")).getD (.bool true))) := by
  refine ⟨?_, fun hs laterStores => gahRun_cached laterStores hs, fun st => ?_⟩
  · induction ss with
    | nil => simp [gahRun]
    | cons s ss ih =>
      dsimp only [gahRun]
      rcases gah_step_shape s with ⟨hf, hc⟩ | ⟨hs, hc, hf⟩
      · simpa [hf, hc] using ih
      · simp [hf, hc, gahRun_cached]
  · exact configGet_known st _ _ rfl

/-- C4: on a non-ignored request with all four sink toggles on, a
recognized log level, a parsable body and resolvable handlers, dispatch
performs exactly the email send, then the log write at the configured
level, then the storage write, then the handler invocations — each
derived from the same raw body (`req.body`) and the same captured user
agent (`req.http_user_agent`). -/
theorem c4_all_sinks_once_in_order
    (s : Settings) (cache cache' : Option (List Handler)) (req : Request)
    (lvl : String) (hs : List Handler) (r : CSPReport) (flag : Bool)
    (hIgn : should_ignore_report s req = .ok false)
    (hE : cfgTruthy s "EMAIL_ADMINS" = true)
    (hL : cfgTruthy s "LOG" = true)
    (hLvl : configGet s "LOG_LEVEL" = some (.str lvl))
    (hLvlOk : lvl ∈ loggerMethods)
    (hS : cfgTruthy s "SAVE" = true)
    (hA : cfgTruthy s "ADDITIONAL_HANDLERS" = true)
    (hG : get_additional_handlers s cache = (.ok hs, cache', flag))
    (hP : CSPReport.from_message req.body = .ok r)
    (_hV : r.is_valid = true) :
    process_report s cache req =
      ⟨[.email "CSP Violation Report"
          ("User agent:\n" ++ req.http_user_agent ++ "\n\nReport:\n" ++ format_report req.body),
        .logWrite lvl ("Content Security Policy violation: " ++ format_report req.body),
        .saveRecord { r with user_agent := req.http_user_agent }] ++
        hs.map (fun h => .runHandler h req),
       cache', none⟩ := by
  have hlog : log_report s req =
      .ok (.logWrite lvl ("Content Security Policy violation: " ++ format_report req.body)) := by
    unfold log_report
    rw [hLvl]
    simp [hLvlOk]
  have hsave : save_report req = .ok (.saveRecord { r with user_agent := req.http_user_agent }) := by
    unfold save_report
    rw [hP]
  simp [process_report, hIgn, runSinks, hE, hL, hlog, sinksFromSave, hS, hsave,
    hA, hG, email_admins, Except.map]

/-- Settings enabling a custom handler on top of the default toggles. -/
def c4Settings : Settings := [("CSP_REPORTS_ADDITIONAL_HANDLERS", .strList ["mymod.f"])]

/-- The request carrying the concrete valid report. -/
def goodReq : Request := ⟨goodReportMsg, "UA"⟩

/-- C4 witness: the full dispatch on a concrete valid report with all four
sinks enabled. -/
theorem c4_witness :
    process_report c4Settings none goodReq =
      ⟨[.email "CSP Violation Report"
          ("User agent:\n" ++ goodReq.http_user_agent ++ "\n\nReport:\n" ++ format_report goodReq.body),
        .logWrite "warning" ("Content Security Policy violation: " ++ format_report goodReq.body),
        .saveRecord { goodReport with user_agent := goodReq.http_user_agent }] ++
        [Handler.mk "mymod" "f"].map (fun h => .runHandler h goodReq),
       some [Handler.mk "mymod" "f"], none⟩ :=
  c4_all_sinks_once_in_order c4Settings none (some [Handler.mk "mymod" "f"]) goodReq
    "warning" [Handler.mk "mymod" "f"] goodReport true
    (by rfl) (by rfl) (by rfl) (by rfl) (by decide) (by rfl) (by rfl) (by rfl) (by rfl) (by decide)

/-!
## Roundtrip of the JSON printer and decoder

Decoding a `json_dumps` output recovers the value up to `sortKeys`, and
`sortKeys` is idempotent; together these give the idempotence of
`format_report` on its successful output (claim C7).
-/

/-- The key is absent from the member list. -/
def keyNotIn (k : String) : List (String × Json) → Bool
  | [] => true
  | (k', _) :: rest => !(k' == k) && keyNotIn k rest

/-- Pairwise-distinct keys. -/
def keysOk : List (String × Json) → Bool
  | [] => true
  | (k, _) :: rest => keyNotIn k rest && keysOk rest

mutual

/-- Every object inside the value has pairwise-distinct keys — true of all
decoder output, whose member lists come from Python dicts. -/
def runiq : Json → Bool
  | .null => true
  | .bool _ => true
  | .num _ => true
  | .str _ => true
  | .arr xs => runiqList xs
  | .obj ms => keysOk ms && runiqMembers ms

def runiqList : List Json → Bool
  | [] => true
  | x :: xs => runiq x && runiqList xs

def runiqMembers : List (String × Json) → Bool
  | [] => true
  | (_, v) :: ms => runiq v && runiqMembers ms

end

mutual

/-- Fuel sufficient for `parseVal` to decode the serialization of the
value. -/
def pcost : Json → Nat
  | .arr xs => 2 + ecost xs
  | .obj ms => 2 + mcost ms
  | .null => 1
  | .bool _ => 1
  | .num _ => 1
  | .str _ => 1

def ecost : List Json → Nat
  | [] => 0
  | x :: xs => 1 + pcost x + ecost xs

def mcost : List (String × Json) → Nat
  | [] => 0
  | (_, v) :: ms => 1 + pcost v + mcost ms

end

/-- The decimal digit character of `d`. -/
def digitCh (d : Nat) : Char := Char.ofNat (48 + d)

/-- Input that cannot extend a JSON number literal. -/
def numBoundary : List Char → Bool
  | [] => true
  | c :: _ => !isDigitChar c && !(c == '.') && !(c == 'e') && !(c == 'E')

theorem skipWs_all_ws (l : List Char) (h : ∀ c ∈ l, isJsonWs c = true) (rest : List Char) :
    skipWs (l ++ rest) = skipWs rest := by
  induction l with
  | nil => rfl
  | cons c cs ih =>
    rw [List.cons_append, skipWs, if_pos (h c (List.mem_cons_self c cs))]
    exact ih fun c' hc' => h c' (List.mem_cons_of_mem c hc')

theorem skipWs_not_ws {c : Char} (h : isJsonWs c = false) (r : List Char) :
    skipWs (c :: r) = c :: r := by
  rw [skipWs, if_neg (by simp [h])]

theorem nlIndent_ws (d : Nat) : ∀ c ∈ nlIndent d, isJsonWs c = true := by
  intro c hc
  rcases List.mem_cons.1 hc with h | h
  · simp [h, isJsonWs]
  · rw [List.eq_of_mem_replicate h]
    rfl

theorem skipWs_nlIndent (d : Nat) (rest : List Char) :
    skipWs (nlIndent d ++ rest) = skipWs rest :=
  skipWs_all_ws _ (nlIndent_ws d) rest

theorem digitCh_toNat {d : Nat} (h : d < 10) : (digitCh d).toNat = 48 + d := by
  interval_cases d <;> rfl

theorem isDigitChar_digitCh {d : Nat} (h : d < 10) : isDigitChar (digitCh d) = true := by
  simp [isDigitChar, digitCh_toNat h]
  omega

theorem natCharsCore_eq (f : Nat) : ∀ n acc, 1 ≤ n → n < 10 ^ f →
    natCharsCore f n acc = ((Nat.digits 10 n).reverse.map digitCh) ++ acc := by
  induction f with
  | zero =>
    intro n acc h1 h2
    simp at h2
    omega
  | succ f ih =>
    intro n acc h1 h2
    rw [natCharsCore]
    by_cases hn : n < 10
    · rw [if_pos hn]
      have hd : Nat.digits 10 n = [n] := by
        have := Nat.digits_def' (by norm_num : 1 < 10) (show 0 < n by omega)
        rw [this, Nat.div_eq_of_lt hn, Nat.mod_eq_of_lt hn]
        simp
      rw [hd]
      simp [digitCh, Nat.mod_eq_of_lt hn]
    · rw [if_neg hn]
      have h10 : 1 ≤ n / 10 := (Nat.one_le_div_iff (by norm_num)).2 (by omega)
      have hlt : n / 10 < 10 ^ f := by
        rw [Nat.div_lt_iff_lt_mul (by norm_num)]
        calc n < 10 ^ (f + 1) := h2
          _ = 10 ^ f * 10 := by ring
      have hdn : Nat.digits 10 n = n % 10 :: Nat.digits 10 (n / 10) :=
        Nat.digits_def' (by norm_num : 1 < 10) (show 0 < n by omega)
      rw [ih (n / 10) _ h10 hlt, hdn]
      simp [digitCh]

theorem natChars_eq {n : Nat} (h : 1 ≤ n) :
    natChars n = (Nat.digits 10 n).reverse.map digitCh := by
  have hlt : n < 10 ^ (n + 1) :=
    lt_of_lt_of_le (Nat.lt_two_pow n) (by
      calc (2 : Nat) ^ n ≤ 10 ^ n := Nat.pow_le_pow_left (by norm_num) n
        _ ≤ 10 ^ (n + 1) := Nat.pow_le_pow_right (by norm_num) (by omega))
  simpa using natCharsCore_eq (n + 1) n [] h hlt

theorem digitsToNat_cons (acc : Nat) (c : Char) (l : List Char) :
    digitsToNat (c :: l) acc = digitsToNat l (acc * 10 + (c.toNat - 48)) := rfl

theorem digitsToNat_map (ds : List Nat) (hds : ∀ d ∈ ds, d < 10) :
    ∀ acc, digitsToNat (ds.map digitCh) acc =
      acc * 10 ^ ds.length + Nat.ofDigits 10 ds.reverse := by
  induction ds with
  | nil => intro acc; simp [digitsToNat, Nat.ofDigits]
  | cons d ds ih =>
    intro acc
    have hd : d < 10 := hds d (List.mem_cons_self d ds)
    rw [List.map_cons, digitsToNat_cons, digitCh_toNat hd,
      ih fun d' hd' => hds d' (List.mem_cons_of_mem d hd')]
    have h48 : 48 + d - 48 = d := by omega
    rw [h48, List.reverse_cons, Nat.ofDigits_append]
    simp [Nat.ofDigits, pow_succ]
    ring

/-- The digit-run shape of `natChars` for a positive number. -/
theorem natChars_run {m : Nat} (h : 1 ≤ m) :
    ∃ (d0 : Nat) (ds : List Nat), natChars m = digitCh d0 :: ds.map digitCh ∧ d0 < 10 ∧ d0 ≠ 0 ∧
      (∀ d ∈ ds, d < 10) ∧ digitsToNat (digitCh d0 :: ds.map digitCh) 0 = m := by
  have hne : Nat.digits 10 m ≠ [] := Nat.digits_ne_nil_iff_ne_zero.2 (by omega)
  have hne2 : (Nat.digits 10 m).reverse ≠ [] := by
    simpa using hne
  obtain ⟨d0, ds, hrev⟩ := List.exists_cons_of_ne_nil hne2
  have hdig : Nat.digits 10 m = ds.reverse ++ [d0] := by
    have h2 := congrArg List.reverse hrev
    simpa using h2
  have hmem : ∀ d ∈ d0 :: ds, d < 10 := by
    intro d hd
    refine Nat.digits_lt_base (by norm_num) (show d ∈ Nat.digits 10 m from ?_)
    rw [hdig]
    rcases List.mem_cons.1 hd with h' | h'
    · simp [h']
    · simp [h']
  have hd0ne : d0 ≠ 0 := by
    have hlast := Nat.getLast_digit_ne_zero 10 (show m ≠ 0 by omega)
    have hgl : (Nat.digits 10 m).getLast hne = d0 := by
      have hcat : Nat.digits 10 m = (ds.reverse).concat d0 := by
        rw [hdig, List.concat_eq_append]
      simp [hcat]
    rwa [hgl] at hlast
  refine ⟨d0, ds, ?_, hmem d0 (List.mem_cons_self d0 ds), hd0ne,
    fun d hd => hmem d (List.mem_cons_of_mem d0 hd), ?_⟩
  · rw [natChars_eq h, hrev, List.map_cons]
  · have hm := digitsToNat_map (d0 :: ds) hmem 0
    rw [List.map_cons] at hm
    rw [hm]
    have hrr : (d0 :: ds).reverse = Nat.digits 10 m := by
      rw [hdig]
      simp
    rw [hrr, Nat.ofDigits_digits]
    omega
theorem numBoundary_head {c : Char} {r : List Char} (h : numBoundary (c :: r) = true) :
    isDigitChar c = false ∧ c ≠ '.' ∧ c ≠ 'e' ∧ c ≠ 'E' := by
  simp [numBoundary] at h
  tauto

theorem digit_run_split (ds : List Char) (hds : ∀ c ∈ ds, isDigitChar c = true)
    (rest : List Char) (hrest : numBoundary rest = true) :
    List.takeWhile isDigitChar (ds ++ rest) = ds ∧
    List.dropWhile isDigitChar (ds ++ rest) = rest := by
  induction ds with
  | nil =>
    cases rest with
    | nil => simp
    | cons c r =>
      have := (numBoundary_head hrest).1
      simp [List.takeWhile_cons, List.dropWhile_cons, this]
  | cons d ds ih =>
    have hd := hds d (List.mem_cons_self d ds)
    have := ih fun c hc => hds c (List.mem_cons_of_mem d hc)
    simp [List.takeWhile_cons, List.dropWhile_cons, hd, this.1, this.2]

theorem digitCh_toNat_ne {d : Nat} (hd : d < 10) (c : Char) (hc : ¬c.toNat = 48 + d) :
    digitCh d ≠ c := by
  intro h
  exact hc (h ▸ digitCh_toNat hd)

theorem map_digitCh_digits {ds : List Nat} (hds : ∀ d ∈ ds, d < 10) :
    ∀ c ∈ ds.map digitCh, isDigitChar c = true := by
  intro c hc
  obtain ⟨d, hd, rfl⟩ := List.mem_map.1 hc
  exact isDigitChar_digitCh (hds d hd)

theorem numBoundary_not_continues {rest : List Char} (hb : numBoundary rest = true) :
    numContinues rest = false := by
  cases rest with
  | nil => rfl
  | cons c r =>
    have h := numBoundary_head hb
    simp [numContinues, h.2.1, h.2.2.1, h.2.2.2]

theorem parseNumber_run_pos {d0 : Nat} {ds : List Nat} (hd0 : d0 < 10) (hd0ne : d0 ≠ 0)
    (hds : ∀ d ∈ ds, d < 10) (rest : List Char) (hb : numBoundary rest = true) :
    parseNumber (digitCh d0 :: ds.map digitCh ++ rest) =
      some (.num (digitsToNat (digitCh d0 :: ds.map digitCh) 0 : Int), rest) := by
  have hrun := digit_run_split (digitCh d0 :: ds.map digitCh)
    (by
      intro c hc
      rcases List.mem_cons.1 hc with h | h
      · rw [h]; exact isDigitChar_digitCh hd0
      · exact map_digitCh_digits hds c h)
    rest hb
  rw [List.cons_append] at hrun
  have hne0 : digitCh d0 ≠ '0' :=
    digitCh_toNat_ne hd0 '0' (by rw [show ('0').toNat = 48 from rfl]; omega)
  have hneMinus : (digitCh d0 :: (ds.map digitCh ++ rest)).head? ≠ some '-' := by
    rw [List.head?_cons]
    intro h
    exact digitCh_toNat_ne hd0 '-' (by rw [show ('-').toNat = 45 from rfl]; omega)
      (Option.some.inj h)
  rw [parseNumber, List.cons_append, if_neg hneMinus]
  dsimp only []
  rw [if_pos (isDigitChar_digitCh hd0), if_neg hne0, hrun.1, hrun.2,
    if_neg (by rw [numBoundary_not_continues hb]; exact Bool.false_ne_true)]
  simp

theorem parseNumber_run_neg {d0 : Nat} {ds : List Nat} (hd0 : d0 < 10) (hd0ne : d0 ≠ 0)
    (hds : ∀ d ∈ ds, d < 10) (rest : List Char) (hb : numBoundary rest = true) :
    parseNumber ('-' :: (digitCh d0 :: ds.map digitCh) ++ rest) =
      some (.num (-(digitsToNat (digitCh d0 :: ds.map digitCh) 0 : Int)), rest) := by
  have hrun := digit_run_split (digitCh d0 :: ds.map digitCh)
    (by
      intro c hc
      rcases List.mem_cons.1 hc with h | h
      · rw [h]; exact isDigitChar_digitCh hd0
      · exact map_digitCh_digits hds c h)
    rest hb
  rw [List.cons_append] at hrun
  have hne0 : digitCh d0 ≠ '0' :=
    digitCh_toNat_ne hd0 '0' (by rw [show ('0').toNat = 48 from rfl]; omega)
  rw [parseNumber, List.cons_append, List.cons_append,
    if_pos (by rw [List.head?_cons])]
  dsimp only [List.tail_cons]
  rw [if_pos (isDigitChar_digitCh hd0), if_neg hne0, hrun.1, hrun.2,
    if_neg (by rw [numBoundary_not_continues hb]; exact Bool.false_ne_true)]
  simp

theorem parseNumber_intChars (n : Int) (rest : List Char) (hb : numBoundary rest = true) :
    parseNumber (intChars n ++ rest) = some (.num n, rest) := by
  cases n with
  | ofNat m =>
    rcases Nat.eq_zero_or_pos m with rfl | hm
    · rw [show intChars (Int.ofNat 0) = ['0'] from rfl, List.singleton_append, parseNumber]
      rw [if_neg (show ¬(('0' :: rest).head? = some '-') by rw [List.head?_cons]; simp)]
      dsimp only []
      rw [if_pos (show isDigitChar '0' = true from rfl), if_pos rfl,
        if_neg (by rw [numBoundary_not_continues hb]; exact Bool.false_ne_true)]
      simp [digitsToNat]
    · obtain ⟨d0, ds, hnat, hd0, hd0ne, hds, hval⟩ := natChars_run hm
      rw [show intChars (Int.ofNat m) = natChars m from rfl, hnat,
        parseNumber_run_pos hd0 hd0ne hds rest hb, hval]
      rfl
  | negSucc m =>
    have hm : 1 ≤ m + 1 := by omega
    obtain ⟨d0, ds, hnat, hd0, hd0ne, hds, hval⟩ := natChars_run hm
    have hrne := parseNumber_run_neg hd0 hd0ne hds rest hb
    simp only [List.cons_append] at hrne
    rw [show intChars (Int.negSucc m) = '-' :: natChars (m + 1) from rfl, List.cons_append,
      hnat, List.cons_append, hrne, hval]
    have hns : -((m + 1 : Nat) : Int) = Int.negSucc m := by
      rw [Int.negSucc_eq]
      push_cast
      ring
    rw [hns]

theorem hexVal?_hexDigit {d : Nat} (h : d < 16) : hexVal? (hexDigit d) = some d := by
  interval_cases d <;> rfl

theorem parseStr_u_scalar (n : Nat) (hn : n < 65536)
    (hns : n < 55296 ∨ 57343 < n) (tail : List Char) :
    parseStr ('\\' :: 'u' :: hex4 n ++ tail) =
      (parseStr tail).map fun p => (Char.ofNat n :: p.1, p.2) := by
  rw [hex4]
  simp only [List.cons_append, List.nil_append]
  rw [parseStr]
  rw [hexVal?_hexDigit (Nat.mod_lt _ (by norm_num)),
    hexVal?_hexDigit (Nat.mod_lt _ (by norm_num)),
    hexVal?_hexDigit (Nat.mod_lt _ (by norm_num)),
    hexVal?_hexDigit (Nat.mod_lt _ (by norm_num))]
  dsimp only []
  rw [if_neg (by simp only [Bool.and_eq_true, decide_eq_true_eq]; omega),
    if_neg (by simp only [Bool.and_eq_true, decide_eq_true_eq]; omega)]
  have hvaleq : 4096 * (n / 4096 % 16) + 256 * (n / 256 % 16) + 16 * (n / 16 % 16) + n % 16 = n := by
    omega
  rw [hvaleq]

theorem parseStr_u_pair (hi lo : Nat) (hhi : 55296 ≤ hi ∧ hi ≤ 56319)
    (hlo : 56320 ≤ lo ∧ lo ≤ 57343) (tail : List Char) :
    parseStr ('\\' :: 'u' :: hex4 hi ++ ('\\' :: 'u' :: hex4 lo ++ tail)) =
      (parseStr tail).map fun p =>
        (Char.ofNat (65536 + 1024 * (hi - 55296) + (lo - 56320)) :: p.1, p.2) := by
  rw [hex4, hex4]
  simp only [List.cons_append, List.nil_append]
  rw [parseStr]
  rw [hexVal?_hexDigit (Nat.mod_lt _ (by norm_num)),
    hexVal?_hexDigit (Nat.mod_lt _ (by norm_num)),
    hexVal?_hexDigit (Nat.mod_lt _ (by norm_num)),
    hexVal?_hexDigit (Nat.mod_lt _ (by norm_num))]
  dsimp only []
  rw [if_pos (by simp only [Bool.and_eq_true, decide_eq_true_eq]; omega)]
  split
  next g1 g2 g3 g4 rest2 heq =>
    injection heq with h heq
    injection heq with h heq
    injection heq with h1 heq
    injection heq with h2 heq
    injection heq with h3 heq
    injection heq with h4 heq
    subst h1 h2 h3 h4 heq
    rw [hexVal?_hexDigit (Nat.mod_lt _ (by norm_num)),
      hexVal?_hexDigit (Nat.mod_lt _ (by norm_num)),
      hexVal?_hexDigit (Nat.mod_lt _ (by norm_num)),
      hexVal?_hexDigit (Nat.mod_lt _ (by norm_num))]
    dsimp only []
    rw [if_pos (by simp only [Bool.and_eq_true, decide_eq_true_eq]; omega)]
    have h1 : 4096 * (hi / 4096 % 16) + 256 * (hi / 256 % 16) + 16 * (hi / 16 % 16) + hi % 16 = hi := by
      omega
    have h2 : 4096 * (lo / 4096 % 16) + 256 * (lo / 256 % 16) + 16 * (lo / 16 % 16) + lo % 16 = lo := by
      omega
    rw [h1, h2]
  next hne =>
    exact absurd rfl (hne _ _ _ _ _)

theorem charValid (c : Char) : c.toNat < 55296 ∨ (57343 < c.toNat ∧ c.toNat < 1114112) := by
  have h := c.valid
  unfold UInt32.isValidChar Nat.isValidChar at h
  exact h

theorem parseStr_escChar (c : Char) (rest : List Char) :
    parseStr (escChar c ++ rest) = (parseStr rest).map fun p => (c :: p.1, p.2) := by
  have hval := charValid c
  rw [escChar]
  by_cases h1 : c = '"'
  · subst h1; rw [if_pos rfl]; rfl
  rw [if_neg h1]
  by_cases h2 : c = '\\'
  · subst h2; rw [if_pos rfl]; rfl
  rw [if_neg h2]
  by_cases h3 : c.toNat = 8
  · rw [if_pos h3]
    have hc : c = Char.ofNat 8 := by rw [← Char.ofNat_toNat c, h3]
    rw [hc]; rfl
  rw [if_neg h3]
  by_cases h4 : c.toNat = 12
  · rw [if_pos h4]
    have hc : c = Char.ofNat 12 := by rw [← Char.ofNat_toNat c, h4]
    rw [hc]; rfl
  rw [if_neg h4]
  by_cases h5 : c = '\n'
  · subst h5; rw [if_pos rfl]; rfl
  rw [if_neg h5]
  by_cases h6 : c = '\r'
  · subst h6; rw [if_pos rfl]; rfl
  rw [if_neg h6]
  by_cases h7 : c = '\t'
  · subst h7; rw [if_pos rfl]; rfl
  rw [if_neg h7]
  by_cases h8 : c.toNat < 32 ∨ (127 ≤ c.toNat ∧ c.toNat ≤ 65535)
  · rw [if_pos (by simp only [Bool.or_eq_true, Bool.and_eq_true, decide_eq_true_eq]; exact h8)]
    rw [parseStr_u_scalar c.toNat
      (by rcases h8 with h | h <;> omega)
      (by rcases hval with h | h <;> rcases h8 with h' | h' <;> omega) rest]
    rw [Char.ofNat_toNat]
  rw [if_neg (by simp only [Bool.or_eq_true, Bool.and_eq_true, decide_eq_true_eq]; exact h8)]
  by_cases h9 : 65536 ≤ c.toNat
  · rw [if_pos h9]
    rw [List.append_assoc]
    rw [parseStr_u_pair (55296 + (c.toNat - 65536) / 1024) (56320 + (c.toNat - 65536) % 1024)
      (by constructor <;> [omega; (rcases hval with h | h <;> omega)])
      (by omega) rest]
    have hcomb : 65536 + 1024 * ((55296 + (c.toNat - 65536) / 1024) - 55296) +
        ((56320 + (c.toNat - 65536) % 1024) - 56320) = c.toNat := by omega
    rw [hcomb, Char.ofNat_toNat]
  · rw [if_neg h9, List.singleton_append, parseStr.eq_def]
    split
    next heq => exact absurd heq (by simp)
    next heq =>
      injection heq with hh _
      exact absurd hh h1
    next h1' h2' h3' h4' r' heq =>
      injection heq with hh _
      exact absurd hh h2
    next e r' heq =>
      injection heq with hh _
      exact absurd hh h2
    next c' r' heq =>
      injection heq with hh htl
      subst hh htl
      rw [if_neg (by omega)]

theorem parseStr_escStr (s : List Char) (rest : List Char) :
    parseStr (escStr s ++ '"' :: rest) = some (s, rest) := by
  induction s with
  | nil => rfl
  | cons c cs ih =>
    rw [escStr, List.append_assoc, parseStr_escChar, ih]
    rfl

theorem asString_toList (s : String) : s.toList.asString = s := rfl

theorem char_ne_of_toNat {c c' : Char} (h : c.toNat ≠ c'.toNat) : c ≠ c' :=
  fun he => h (he ▸ rfl)

theorem isJsonWs_false_of_toNat {c : Char}
    (h : c.toNat ≠ 32 ∧ c.toNat ≠ 9 ∧ c.toNat ≠ 10 ∧ c.toNat ≠ 13) : isJsonWs c = false := by
  have h1 : c ≠ ' ' := fun he => h.1 (by rw [he]; rfl)
  have h2 : c ≠ '\t' := fun he => h.2.1 (by rw [he]; rfl)
  have h3 : c ≠ '\n' := fun he => h.2.2.1 (by rw [he]; rfl)
  have h4 : c ≠ '\r' := fun he => h.2.2.2 (by rw [he]; rfl)
  simp [isJsonWs, h1, h2, h3, h4]

/-- Every serialized value starts with a non-whitespace character that is
neither a closing bracket nor a closing brace. -/
theorem serVal_head (j : Json) (d : Nat) :
    ∃ c r, serVal j d = c :: r ∧ isJsonWs c = false ∧ c ≠ ']' ∧ c ≠ '}' := by
  have mk : ∀ c : Char, ∀ r : List Char, serVal j d = c :: r →
      (isJsonWs c = false ∧ c ≠ ']' ∧ c ≠ '}') →
      ∃ c r, serVal j d = c :: r ∧ isJsonWs c = false ∧ c ≠ ']' ∧ c ≠ '}' :=
    fun c r hser hp => ⟨c, r, hser, hp.1, hp.2.1, hp.2.2⟩
  cases j with
  | null => exact mk 'n' _ rfl (by decide)
  | bool b =>
    cases b with
    | true => exact mk 't' _ rfl (by decide)
    | false => exact mk 'f' _ rfl (by decide)
  | num n =>
    cases n with
    | ofNat m =>
      rcases Nat.eq_zero_or_pos m with rfl | hm
      · exact mk '0' _ rfl (by decide)
      · obtain ⟨d0, ds, hnat, hd0, _, _, _⟩ := natChars_run hm
        refine mk (digitCh d0) (ds.map digitCh)
          (by rw [show serVal (.num (Int.ofNat m)) d = natChars m from rfl, hnat]) ⟨?_, ?_, ?_⟩
        · exact isJsonWs_false_of_toNat (by rw [digitCh_toNat hd0]; omega)
        · exact char_ne_of_toNat (by rw [digitCh_toNat hd0, show (']').toNat = 93 from rfl]; omega)
        · exact char_ne_of_toNat (by rw [digitCh_toNat hd0, show ('}').toNat = 125 from rfl]; omega)
    | negSucc m => exact mk '-' _ rfl (by decide)
  | str s => exact mk '"' _ rfl (by decide)
  | arr xs =>
    cases xs with
    | nil => exact mk '[' _ rfl (by decide)
    | cons x xs => exact mk '[' _ rfl (by decide)
  | obj ms =>
    cases ms with
    | nil => exact mk (Char.ofNat 123) _ rfl (by decide)
    | cons m ms => exact mk (Char.ofNat 123) _ rfl (by decide)

theorem skipWs_serVal (j : Json) (d : Nat) (rest : List Char) :
    skipWs (serVal j d ++ rest) = serVal j d ++ rest := by
  obtain ⟨c, r, hser, hws, _, _⟩ := serVal_head j d
  rw [hser, List.cons_append, skipWs_not_ws hws]

theorem serVal_append_head?_ne (j : Json) (d : Nat) (rest : List Char) :
    (serVal j d ++ rest).head? ≠ some ']' ∧ (serVal j d ++ rest).head? ≠ some '}' := by
  obtain ⟨c, r, hser, _, hne1, hne2⟩ := serVal_head j d
  rw [hser, List.cons_append, List.head?_cons]
  exact ⟨fun h => hne1 (Option.some.inj h), fun h => hne2 (Option.some.inj h)⟩

theorem keyNotIn_iff (k : String) (l : List (String × Json)) :
    keyNotIn k l = true ↔ ∀ p ∈ l, p.1 ≠ k := by
  induction l with
  | nil => simp [keyNotIn]
  | cons p rest ih =>
    obtain ⟨k', v'⟩ := p
    simp [keyNotIn, ih]

theorem insUpd_of_keyNotIn {k : String} {acc : List (String × Json)}
    (h : keyNotIn k acc = true) (v : Json) : insUpd acc k v = acc ++ [(k, v)] := by
  induction acc with
  | nil => rfl
  | cons p rest ih =>
    obtain ⟨k', v'⟩ := p
    simp only [keyNotIn, Bool.and_eq_true, Bool.not_eq_true', beq_eq_false_iff_ne] at h
    rw [insUpd, if_neg h.1, ih h.2]
    simp

theorem keyNotIn_append {k : String} {l1 l2 : List (String × Json)} :
    keyNotIn k (l1 ++ l2) = true ↔ keyNotIn k l1 = true ∧ keyNotIn k l2 = true := by
  simp only [keyNotIn_iff, List.mem_append]
  constructor
  · exact fun h => ⟨fun p hp => h p (Or.inl hp), fun p hp => h p (Or.inr hp)⟩
  · rintro ⟨h1, h2⟩ p (hp | hp)
    · exact h1 p hp
    · exact h2 p hp

theorem keysOk_extract {acc : List (String × Json)} {k : String} {v : Json}
    {ms : List (String × Json)} (h : keysOk (acc ++ (k, v) :: ms) = true) :
    keyNotIn k acc = true := by
  induction acc with
  | nil => rfl
  | cons p rest ih =>
    obtain ⟨k0, v0⟩ := p
    rw [List.cons_append, keysOk, Bool.and_eq_true] at h
    rw [keyNotIn, Bool.and_eq_true]
    refine ⟨?_, ih h.2⟩
    have := (keyNotIn_iff k0 _).1 h.1 (k, v) (by simp)
    simp only [Bool.not_eq_true', beq_eq_false_iff_ne]
    exact fun he => this he.symm

theorem dictify_eq_self {ms : List (String × Json)} (h : keysOk ms = true) :
    dictify ms = ms := by
  suffices haux : ∀ (ms acc : List (String × Json)), keysOk (acc ++ ms) = true →
      ms.foldl (fun acc m => insUpd acc m.1 m.2) acc = acc ++ ms by
    simpa using haux ms [] (by simpa using h)
  intro ms
  induction ms with
  | nil => intro acc _; simp
  | cons m rest ih =>
    intro acc hacc
    obtain ⟨k, v⟩ := m
    rw [List.foldl_cons]
    have hni : keyNotIn k acc = true := keysOk_extract hacc
    rw [insUpd_of_keyNotIn hni v, ih (acc ++ [(k, v)]) (by simpa using hacc)]
    simp

theorem natChars_length_pos (n : Nat) : 0 < (natChars n).length := by
  rcases Nat.eq_zero_or_pos n with rfl | hm
  · simp [natChars, natCharsCore]
  · obtain ⟨d0, ds, hnat, _, _, _, _⟩ := natChars_run hm
    rw [hnat]
    simp

theorem intChars_length_pos (n : Int) : 0 < (intChars n).length := by
  cases n with
  | ofNat m => exact natChars_length_pos m
  | negSucc m => simp [intChars]

mutual

theorem pcost_le_serVal (j : Json) (d : Nat) : pcost j ≤ (serVal j d).length := by
  cases j with
  | null => simp [pcost, serVal]
  | bool b => cases b <;> simp [pcost, serVal]
  | num n =>
    have := intChars_length_pos n
    simp only [pcost, serVal]
    omega
  | str s => simp [pcost, serVal, serStr]
  | arr xs =>
    cases xs with
    | nil => simp [pcost, ecost, serVal]
    | cons x xs =>
      have h := ecost_le_serElems x xs (d + 1)
      simp only [pcost, serVal, List.length_cons, List.length_append, nlIndent,
        List.length_replicate]
      omega
  | obj ms =>
    cases ms with
    | nil => simp [pcost, mcost, serVal]
    | cons m ms =>
      have h := mcost_le_serMembers m ms (d + 1)
      simp only [pcost, serVal, List.length_cons, List.length_append, nlIndent,
        List.length_replicate]
      omega
termination_by sizeOf j

theorem ecost_le_serElems (x : Json) (xs : List Json) (d : Nat) :
    ecost (x :: xs) ≤ (serElems (x :: xs) d).length + 1 := by
  cases xs with
  | nil =>
    have := pcost_le_serVal x d
    simp only [ecost, serElems]
    omega
  | cons y ys =>
    have h1 := pcost_le_serVal x d
    have h2 := ecost_le_serElems y ys d
    simp only [ecost] at h2
    simp only [ecost, serElems, List.length_append, List.length_cons, nlIndent,
      List.length_replicate]
    omega
termination_by sizeOf (x :: xs)

theorem mcost_le_serMembers (m : String × Json) (ms : List (String × Json)) (d : Nat) :
    mcost (m :: ms) ≤ (serMembers (m :: ms) d).length + 1 := by
  cases ms with
  | nil =>
    obtain ⟨k, v⟩ := m
    have := pcost_le_serVal v d
    simp only [mcost, serMembers, List.length_append, List.length_cons]
    omega
  | cons m2 ms2 =>
    obtain ⟨k, v⟩ := m
    obtain ⟨k2, v2⟩ := m2
    have h1 := pcost_le_serVal v d
    have h2 := mcost_le_serMembers (k2, v2) ms2 d
    simp only [mcost] at h2
    simp only [mcost, serMembers, List.length_append, List.length_cons, nlIndent,
      List.length_replicate]
    omega
termination_by sizeOf (m :: ms)

end

theorem parseVal_succ_str (f : Nat) (X : List Char) :
    parseVal (f + 1) ('"' :: X) = (parseStr X).map fun p => (.str p.1.asString, p.2) := rfl

theorem parseVal_succ_lbracket (f : Nat) (X : List Char) :
    parseVal (f + 1) ('[' :: X) =
      if (skipWs X).head? = some ']' then some (.arr [], (skipWs X).tail)
      else (parseElemsAux f (skipWs X)).map fun p => (.arr p.1, p.2) := rfl

theorem parseVal_succ_lbrace (f : Nat) (X : List Char) :
    parseVal (f + 1) (Char.ofNat 123 :: X) =
      if (skipWs X).head? = some (Char.ofNat 125) then some (.obj [], (skipWs X).tail)
      else (parseMembersAux f (skipWs X)).map fun p => (.obj (dictify p.1), p.2) := rfl

theorem parseVal_succ_null (f : Nat) (rest : List Char) :
    parseVal (f + 1) ('n' :: 'u' :: 'l' :: 'l' :: rest) = some (.null, rest) := rfl

theorem parseVal_succ_true (f : Nat) (rest : List Char) :
    parseVal (f + 1) ('t' :: 'r' :: 'u' :: 'e' :: rest) = some (.bool true, rest) := rfl

theorem parseVal_succ_false (f : Nat) (rest : List Char) :
    parseVal (f + 1) ('f' :: 'a' :: 'l' :: 's' :: 'e' :: rest) = some (.bool false, rest) := rfl

theorem parseVal_succ_digitCh (f : Nat) (d0 : Nat) (X : List Char) (hd : d0 < 10) :
    parseVal (f + 1) (digitCh d0 :: X) = parseNumber (digitCh d0 :: X) := by
  interval_cases d0 <;> rfl

theorem parseVal_succ_dash (f : Nat) (X : List Char) :
    parseVal (f + 1) ('-' :: X) = parseNumber ('-' :: X) := rfl

theorem parseVal_succ_zero (f : Nat) (X : List Char) :
    parseVal (f + 1) ('0' :: X) = parseNumber ('0' :: X) := rfl

theorem skipWs_serElems (y : Json) (ys : List Json) (d : Nat) (Z : List Char) :
    skipWs (serElems (y :: ys) d ++ Z) = serElems (y :: ys) d ++ Z := by
  cases ys with
  | nil => rw [serElems, skipWs_serVal]
  | cons z zs =>
    simp only [serElems, List.append_assoc]
    rw [skipWs_serVal]

theorem serMembers_shape (k : String) (v : Json) (ms : List (String × Json)) (d : Nat) :
    serMembers ((k, v) :: ms) d = '"' :: (escStr k.toList ++ '"' ::  ':' :: ' ' ::
      (serVal v d ++
        (match ms with
         | [] => []
         | m2 :: ms2 => ',' :: nlIndent d ++ serMembers (m2 :: ms2) d))) := by
  cases ms with
  | nil => simp [serMembers, serStr]
  | cons m2 ms2 => simp [serMembers, serStr]

theorem skipWs_serMembers (m : String × Json) (ms : List (String × Json)) (d : Nat)
    (Z : List Char) :
    skipWs (serMembers (m :: ms) d ++ Z) = serMembers (m :: ms) d ++ Z := by
  obtain ⟨k, v⟩ := m
  rw [serMembers_shape, List.cons_append, skipWs_not_ws (by decide)]

theorem serMembers_head?_ne_rbrace (m : String × Json) (ms : List (String × Json)) (d : Nat)
    (Z : List Char) :
    ((serMembers (m :: ms) d ++ Z).head? = some (Char.ofNat 125)) = False := by
  obtain ⟨k, v⟩ := m
  rw [serMembers_shape, List.cons_append, List.head?_cons]
  simp only [Option.some.injEq, eq_iff_iff, iff_false]
  intro h
  exact absurd h (by decide)

theorem serElems_append_head?_ne (x : Json) (xs : List Json) (d : Nat) (Z : List Char) :
    ((serElems (x :: xs) d ++ Z).head? = some ']') = False := by
  cases xs with
  | nil =>
    rw [serElems]
    simp only [eq_iff_iff, iff_false]
    exact (serVal_append_head?_ne x d Z).1
  | cons y ys =>
    simp only [serElems, List.append_assoc, eq_iff_iff, iff_false]
    exact (serVal_append_head?_ne x d _).1

theorem skipWs_cons_ws {c : Char} (h : isJsonWs c = true) (r : List Char) :
    skipWs (c :: r) = skipWs r := by
  rw [skipWs, if_pos (by simp [h])]

theorem pcost_pos (j : Json) : 1 ≤ pcost j := by
  cases j <;> simp [pcost] <;> omega

/-- Decoding the serialization of a value recovers it exactly (the three
conjuncts cover values, array elements and object members). -/
theorem parse_ser : ∀ f : Nat,
    (∀ (j : Json) (d : Nat) (rest : List Char), runiq j = true → numBoundary rest = true →
      pcost j ≤ f → parseVal f (serVal j d ++ rest) = some (j, rest)) ∧
    (∀ (x : Json) (xs : List Json) (d : Nat) (rest : List Char),
      runiqList (x :: xs) = true → ecost (x :: xs) ≤ f →
      parseElemsAux f (serElems (x :: xs) (d + 1) ++ (nlIndent d ++ ']' :: rest)) =
        some (x :: xs, rest)) ∧
    (∀ (m : String × Json) (ms : List (String × Json)) (d : Nat) (rest : List Char),
      runiqMembers (m :: ms) = true → mcost (m :: ms) ≤ f →
      parseMembersAux f (serMembers (m :: ms) (d + 1) ++ (nlIndent d ++ Char.ofNat 125 :: rest)) =
        some (m :: ms, rest)) := by
  intro f
  induction f with
  | zero =>
    refine ⟨fun j _ _ _ _ hc => ?_, fun x xs _ _ _ hc => ?_, fun m ms _ _ _ hc => ?_⟩
    · exact absurd hc (by have := pcost_pos j; omega)
    · rw [ecost] at hc
      exact absurd hc (by have := pcost_pos x; omega)
    · obtain ⟨k, v⟩ := m
      rw [mcost] at hc
      exact absurd hc (by have := pcost_pos v; omega)
  | succ f ih =>
    obtain ⟨ihV, ihE, ihM⟩ := ih
    refine ⟨fun j d rest hu hb hc => ?_, fun x xs d rest hu hc => ?_,
      fun m ms d rest hu hc => ?_⟩
    · cases j with
      | null =>
        rw [show serVal .null d = ['n', 'u', 'l', 'l'] from rfl]
        simp only [List.cons_append, List.nil_append]
        exact parseVal_succ_null f rest
      | bool b =>
        cases b with
        | true =>
          rw [show serVal (.bool true) d = ['t', 'r', 'u', 'e'] from rfl]
          simp only [List.cons_append, List.nil_append]
          exact parseVal_succ_true f rest
        | false =>
          rw [show serVal (.bool false) d = ['f', 'a', 'l', 's', 'e'] from rfl]
          simp only [List.cons_append, List.nil_append]
          exact parseVal_succ_false f rest
      | num n =>
        cases n with
        | ofNat m =>
          rcases Nat.eq_zero_or_pos m with rfl | hm
          · rw [show serVal (.num (Int.ofNat 0)) d = ['0'] from rfl, List.singleton_append,
              parseVal_succ_zero]
            exact parseNumber_intChars (Int.ofNat 0) rest hb
          · obtain ⟨d0, ds, hnat, hd0, _, _, _⟩ := natChars_run hm
            rw [show serVal (.num (Int.ofNat m)) d = natChars m from rfl, hnat,
              List.cons_append, parseVal_succ_digitCh f d0 _ hd0, ← List.cons_append, ← hnat]
            exact parseNumber_intChars (Int.ofNat m) rest hb
        | negSucc m =>
          rw [show serVal (.num (Int.negSucc m)) d = '-' :: natChars (m + 1) from rfl,
            List.cons_append, parseVal_succ_dash, ← List.cons_append]
          exact parseNumber_intChars (Int.negSucc m) rest hb
      | str s =>
        rw [show serVal (.str s) d = '"' :: (escStr s.toList ++ ['"']) from rfl,
          List.cons_append, parseVal_succ_str, List.append_assoc, List.singleton_append,
          parseStr_escStr]
        rw [Option.map_some', asString_toList]
      | arr xs =>
        cases xs with
        | nil =>
          rw [show serVal (.arr []) d = ['[', ']'] from rfl]
          rw [show (['[', ']'] : List Char) ++ rest = '[' :: (']' :: rest) from rfl,
            parseVal_succ_lbracket, skipWs_not_ws (by decide)]
          simp
        | cons x xs =>
          rw [show serVal (.arr (x :: xs)) d =
            '[' :: (nlIndent (d + 1) ++ serElems (x :: xs) (d + 1) ++ nlIndent d ++ [']'])
            from rfl, List.cons_append, parseVal_succ_lbracket]
          simp only [List.append_assoc, List.singleton_append]
          rw [skipWs_nlIndent, skipWs_serElems,
            if_neg (by rw [serElems_append_head?_ne]; exact id),
            ihE x xs d rest (by simpa [runiq] using hu)
              (by rw [pcost] at hc; omega)]
          rfl
      | obj ms =>
        cases ms with
        | nil =>
          rw [show serVal (.obj []) d = [Char.ofNat 123, Char.ofNat 125] from rfl]
          rw [show ([Char.ofNat 123, Char.ofNat 125] : List Char) ++ rest =
            Char.ofNat 123 :: (Char.ofNat 125 :: rest) from rfl,
            parseVal_succ_lbrace, skipWs_not_ws (by decide)]
          simp [dictify]
        | cons m ms =>
          rw [show serVal (.obj (m :: ms)) d =
            Char.ofNat 123 :: (nlIndent (d + 1) ++ serMembers (m :: ms) (d + 1) ++
              nlIndent d ++ [Char.ofNat 125]) from rfl, List.cons_append, parseVal_succ_lbrace]
          simp only [List.append_assoc, List.singleton_append]
          rw [skipWs_nlIndent, skipWs_serMembers,
            if_neg (by rw [serMembers_head?_ne_rbrace]; exact id),
            ihM m ms d rest (by
              rw [runiq, Bool.and_eq_true] at hu
              exact hu.2)
              (by rw [pcost] at hc; omega)]
          have hkeys : keysOk (m :: ms) = true := by
            rw [runiq, Bool.and_eq_true] at hu
            exact hu.1
          rw [Option.map_some', dictify_eq_self hkeys]
    · rw [runiqList, Bool.and_eq_true] at hu
      cases xs with
      | nil =>
        rw [serElems, parseElemsAux,
          ihV x (d + 1) (nlIndent d ++ ']' :: rest) hu.1 (by rfl)
            (by rw [ecost, ecost] at hc; omega)]
        simp only [Option.bind, Option.some_bind]
        rw [skipWs_nlIndent, skipWs_not_ws (by decide)]
        simp
      | cons y ys =>
        rw [serElems, parseElemsAux]
        simp only [List.append_assoc, List.cons_append]
        rw [ihV x (d + 1)
          (',' :: (nlIndent (d + 1) ++ (serElems (y :: ys) (d + 1) ++ (nlIndent d ++ ']' :: rest))))
          hu.1 (by rfl) (by rw [ecost] at hc; have := pcost_pos y; omega)]
        simp only [Option.bind, Option.some_bind]
        rw [skipWs_not_ws (by decide)]
        simp only [List.head?_cons, List.tail_cons, Option.some.injEq, if_pos]
        rw [skipWs_nlIndent, skipWs_serElems,
          ihE y ys d rest hu.2 (by rw [ecost] at hc; have := pcost_pos x; omega)]
        rfl
    · obtain ⟨k, v⟩ := m
      rw [runiqMembers, Bool.and_eq_true] at hu
      cases ms with
      | nil =>
        rw [serMembers_shape, parseMembersAux]
        simp only [List.cons_append, List.head?_cons, List.tail_cons, List.nil_append,
          List.append_assoc, if_true, Option.some.injEq]
        rw [parseStr_escStr]
        dsimp only []
        rw [skipWs_not_ws (by decide)]
        simp only [List.head?_cons, List.tail_cons]
        rw [if_pos trivial, skipWs_cons_ws (by decide), skipWs_serVal,
          ihV v (d + 1) (nlIndent d ++ Char.ofNat 125 :: rest) hu.1 (by rfl)
            (by rw [mcost, mcost] at hc; omega)]
        dsimp only []
        rw [skipWs_nlIndent, skipWs_not_ws (by decide)]
        simp only [List.head?_cons, List.tail_cons]
        rw [if_pos trivial, asString_toList, if_neg (by decide)]
      | cons m2 ms2 =>
        rw [serMembers_shape, parseMembersAux]
        simp only [List.cons_append, List.head?_cons, List.tail_cons,
          List.append_assoc, if_true, Option.some.injEq]
        rw [parseStr_escStr]
        dsimp only []
        rw [skipWs_not_ws (by decide)]
        simp only [List.head?_cons, List.tail_cons]
        rw [if_pos trivial, skipWs_cons_ws (by decide), skipWs_serVal,
          ihV v (d + 1)
            (',' :: (nlIndent (d + 1) ++
              (serMembers (m2 :: ms2) (d + 1) ++ (nlIndent d ++ Char.ofNat 125 :: rest))))
            hu.1 (by rfl) (by rw [mcost] at hc; have := pcost_pos m2.2; obtain ⟨k2, v2⟩ := m2; rw [mcost] at hc; omega)]
        dsimp only []
        rw [skipWs_not_ws (by decide)]
        simp only [List.head?_cons, List.tail_cons]
        rw [if_pos trivial, skipWs_nlIndent, skipWs_serMembers,
          ihM m2 ms2 d rest hu.2 (by obtain ⟨k2, v2⟩ := m2; rw [mcost] at hc; omega),
          asString_toList]
        rfl

theorem keyNotIn_insUpd {k0 k : String} {acc : List (String × Json)} (v : Json)
    (h : keyNotIn k0 acc = true) (hne : k ≠ k0) : keyNotIn k0 (insUpd acc k v) = true := by
  induction acc with
  | nil => simp [insUpd, keyNotIn, hne]
  | cons p rest ih =>
    obtain ⟨k', v'⟩ := p
    rw [keyNotIn, Bool.and_eq_true] at h
    rw [insUpd]
    by_cases hk : k' = k
    · rw [if_pos hk, keyNotIn, Bool.and_eq_true]
      exact ⟨h.1, h.2⟩
    · rw [if_neg hk, keyNotIn, Bool.and_eq_true]
      exact ⟨h.1, ih h.2⟩

theorem keysOk_insUpd {acc : List (String × Json)} (k : String) (v : Json)
    (h : keysOk acc = true) : keysOk (insUpd acc k v) = true := by
  induction acc with
  | nil => simp [insUpd, keysOk, keyNotIn]
  | cons p rest ih =>
    obtain ⟨k', v'⟩ := p
    rw [keysOk, Bool.and_eq_true] at h
    rw [insUpd]
    by_cases hk : k' = k
    · rw [if_pos hk, keysOk, Bool.and_eq_true]
      exact ⟨h.1, h.2⟩
    · rw [if_neg hk, keysOk, Bool.and_eq_true]
      exact ⟨keyNotIn_insUpd v h.1 (fun he => hk he.symm), ih h.2⟩

theorem runiqMembers_insUpd {acc : List (String × Json)} (k : String) {v : Json}
    (ha : runiqMembers acc = true) (hv : runiq v = true) :
    runiqMembers (insUpd acc k v) = true := by
  induction acc with
  | nil => simp [insUpd, runiqMembers, hv]
  | cons p rest ih =>
    obtain ⟨k', v'⟩ := p
    rw [runiqMembers, Bool.and_eq_true] at ha
    rw [insUpd]
    by_cases hk : k' = k
    · rw [if_pos hk, runiqMembers, Bool.and_eq_true]
      exact ⟨hv, ha.2⟩
    · rw [if_neg hk, runiqMembers, Bool.and_eq_true]
      exact ⟨ha.1, ih ha.2⟩

theorem dictify_ok {ms : List (String × Json)} (h : runiqMembers ms = true) :
    keysOk (dictify ms) = true ∧ runiqMembers (dictify ms) = true := by
  suffices haux : ∀ (ms acc : List (String × Json)), keysOk acc = true →
      runiqMembers acc = true → runiqMembers ms = true →
      keysOk (ms.foldl (fun acc m => insUpd acc m.1 m.2) acc) = true ∧
      runiqMembers (ms.foldl (fun acc m => insUpd acc m.1 m.2) acc) = true by
    exact haux ms [] rfl rfl h
  intro ms
  induction ms with
  | nil => intro acc h1 h2 _; exact ⟨h1, h2⟩
  | cons m rest ih =>
    intro acc h1 h2 h3
    obtain ⟨k, v⟩ := m
    rw [runiqMembers, Bool.and_eq_true] at h3
    exact ih (insUpd acc k v) (keysOk_insUpd k v h1) (runiqMembers_insUpd k h2 h3.1) h3.2

theorem parseNumber_shape {cs : List Char} {j : Json} {r : List Char}
    (h : parseNumber cs = some (j, r)) : ∃ n, j = .num n := by
  unfold parseNumber at h
  dsimp only [] at h
  repeat' split at h
  all_goals first
    | exact (Option.noConfusion h : (∃ n, j = .num n))
    | exact ⟨_, (congrArg Prod.fst (Option.some.inj h)).symm⟩

/-- Every value the decoder produces has pairwise-distinct keys in all its
objects (they are built with `dict` update semantics). -/
theorem parse_runiq : ∀ f : Nat,
    (∀ cs j r, parseVal f cs = some (j, r) → runiq j = true) ∧
    (∀ cs js r, parseElemsAux f cs = some (js, r) → runiqList js = true) ∧
    (∀ cs ms r, parseMembersAux f cs = some (ms, r) → runiqMembers ms = true) := by
  intro f
  induction f with
  | zero =>
    refine ⟨fun cs j r h => ?_, fun cs js r h => ?_, fun cs ms r h => ?_⟩ <;>
      exact Option.noConfusion h
  | succ f ih =>
    obtain ⟨ihV, ihE, ihM⟩ := ih
    refine ⟨fun cs j r h => ?_, fun cs js r h => ?_, fun cs ms r h => ?_⟩
    · rcases cs with _ | ⟨c, cs1⟩
      · exact Option.noConfusion h
      · rw [parseVal] at h
        repeat' split at h
        all_goals first
          | exact Option.noConfusion h
          | (obtain ⟨n, rfl⟩ := parseNumber_shape h
             rfl)
          | (injection h with h1
             injection h1 with h2 h3
             subst h2
             rfl)
          | (obtain ⟨p, hp, hf⟩ := Option.map_eq_some'.1 h
             injection hf with h2 h3
             subst h2
             first
               | rfl
               | exact ihE _ p.1 p.2 hp
               | (rw [runiq, Bool.and_eq_true]
                  exact dictify_ok (ihM _ p.1 p.2 hp)))
    · rw [parseElemsAux] at h
      repeat' first
        | dsimp only [] at h
        | split at h
      all_goals first
        | exact Option.noConfusion h
        | (injection h with h1
           injection h1 with h2 h3
           subst h2
           rw [runiqList, Bool.and_eq_true]
           exact ⟨ihV _ _ _ (by assumption), rfl⟩)
        | (obtain ⟨p, hp, hf⟩ := Option.map_eq_some'.1 h
           injection hf with h2 h3
           subst h2
           rw [runiqList, Bool.and_eq_true]
           exact ⟨ihV _ _ _ (by assumption), ihE _ p.1 p.2 hp⟩)
    · rw [parseMembersAux] at h
      repeat' first
        | dsimp only [] at h
        | split at h
      all_goals first
        | exact Option.noConfusion h
        | (injection h with h1
           injection h1 with h2 h3
           subst h2
           rw [runiqMembers, Bool.and_eq_true]
           exact ⟨ihV _ _ _ (by assumption), rfl⟩)
        | (obtain ⟨p, hp, hf⟩ := Option.map_eq_some'.1 h
           injection hf with h2 h3
           subst h2
           rw [runiqMembers, Bool.and_eq_true]
           exact ⟨ihV _ _ _ (by assumption), ihM _ p.1 p.2 hp⟩)

theorem toList_asString (l : List Char) : l.asString.toList = l := rfl

theorem charListLe_total : ∀ a b : List Char, charListLe a b = true ∨ charListLe b a = true := by
  intro a
  induction a with
  | nil => intro b; exact Or.inl rfl
  | cons c cs ih =>
    intro b
    cases b with
    | nil => exact Or.inr rfl
    | cons d ds =>
      by_cases h1 : c.toNat < d.toNat
      · exact Or.inl (by rw [charListLe, if_pos h1])
      · by_cases h2 : d.toNat < c.toNat
        · exact Or.inr (by rw [charListLe, if_pos h2])
        · rcases ih ds with h | h
          · exact Or.inl (by rw [charListLe, if_neg h1, if_neg h2]; exact h)
          · exact Or.inr (by rw [charListLe, if_neg h2, if_neg h1]; exact h)

theorem charListLe_trans : ∀ a b c : List Char, charListLe a b = true →
    charListLe b c = true → charListLe a c = true := by
  intro a
  induction a with
  | nil => intro b c _ _; rfl
  | cons x xs ih =>
    intro b c hab hbc
    cases b with
    | nil => exact absurd hab (by rw [charListLe]; simp)
    | cons y ys =>
      cases c with
      | nil => exact absurd hbc (by rw [charListLe]; simp)
      | cons z zs =>
        rw [charListLe] at hab hbc ⊢
        rcases Nat.lt_trichotomy x.toNat y.toNat with h1 | h1 | h1
        · rcases Nat.lt_trichotomy y.toNat z.toNat with h2 | h2 | h2
          · rw [if_pos (by omega : x.toNat < z.toNat)]
          · rw [if_pos (by omega : x.toNat < z.toNat)]
          · rw [if_neg (by omega : ¬y.toNat < z.toNat), if_pos h2] at hbc
            exact absurd hbc (by simp)
        · rw [if_neg (by omega : ¬x.toNat < y.toNat),
            if_neg (by omega : ¬y.toNat < x.toNat)] at hab
          rcases Nat.lt_trichotomy y.toNat z.toNat with h2 | h2 | h2
          · rw [if_pos (by omega : x.toNat < z.toNat)]
          · rw [if_neg (by omega : ¬y.toNat < z.toNat),
              if_neg (by omega : ¬z.toNat < y.toNat)] at hbc
            rw [if_neg (by omega : ¬x.toNat < z.toNat),
              if_neg (by omega : ¬z.toNat < x.toNat)]
            exact ih ys zs hab hbc
          · rw [if_neg (by omega : ¬y.toNat < z.toNat), if_pos h2] at hbc
            exact absurd hbc (by simp)
        · rw [if_neg (by omega : ¬x.toNat < y.toNat), if_pos h1] at hab
          exact absurd hab (by simp)

instance : IsTotal (String × Json) keyLe :=
  ⟨fun a b => charListLe_total a.1.toList b.1.toList⟩

instance : IsTrans (String × Json) keyLe :=
  ⟨fun a b c => charListLe_trans a.1.toList b.1.toList c.1.toList⟩

theorem keysOk_iff (ms : List (String × Json)) :
    keysOk ms = true ↔ (ms.map Prod.fst).Nodup := by
  induction ms with
  | nil => simp [keysOk]
  | cons m rest ih =>
    obtain ⟨k, v⟩ := m
    rw [keysOk, Bool.and_eq_true, keyNotIn_iff]
    simp only [List.map_cons, List.nodup_cons, List.mem_map, ih]
    constructor
    · rintro ⟨h1, h2⟩
      refine ⟨?_, h2⟩
      rintro ⟨p, hp, hpk⟩
      exact h1 p hp hpk
    · rintro ⟨h1, h2⟩
      exact ⟨fun p hp hpk => h1 ⟨p, hp, hpk⟩, h2⟩

theorem runiqMembers_iff (ms : List (String × Json)) :
    runiqMembers ms = true ↔ ∀ m ∈ ms, runiq m.2 = true := by
  induction ms with
  | nil => simp [runiqMembers]
  | cons m rest ih =>
    obtain ⟨k, v⟩ := m
    rw [runiqMembers, Bool.and_eq_true, ih]
    simp

theorem sortKeysMembers_eq_map (ms : List (String × Json)) :
    sortKeysMembers ms = ms.map fun m => (m.1, sortKeys m.2) := by
  induction ms with
  | nil => rfl
  | cons m rest ih =>
    obtain ⟨k, v⟩ := m
    rw [sortKeysMembers, ih]
    rfl

theorem sortKeysMembers_keys (ms : List (String × Json)) :
    (sortKeysMembers ms).map Prod.fst = ms.map Prod.fst := by
  induction ms with
  | nil => rfl
  | cons m rest ih =>
    obtain ⟨k, v⟩ := m
    rw [sortKeysMembers, List.map_cons, ih]
    rfl

theorem sizeOf_snd_lt_cons (m : String × Json) (rest : List (String × Json)) :
    sizeOf m.2 < sizeOf (m :: rest) := by
  cases m
  simp
  omega

mutual

theorem runiq_sortKeys (j : Json) (h : runiq j = true) : runiq (sortKeys j) = true := by
  cases j with
  | null => exact h
  | bool b => exact h
  | num n => exact h
  | str s => exact h
  | arr xs => exact runiqList_sortKeysList xs h
  | obj ms =>
    rw [runiq, Bool.and_eq_true] at h
    have hm : runiqMembers (sortKeysMembers ms) = true := runiqMembers_sortKeysMembers ms h.2
    have hperm : (List.insertionSort keyLe (sortKeysMembers ms)).Perm (sortKeysMembers ms) :=
      List.perm_insertionSort keyLe (sortKeysMembers ms)
    rw [sortKeys, runiq, Bool.and_eq_true]
    constructor
    · rw [keysOk_iff]
      refine ((hperm.map Prod.fst).nodup_iff).2 ?_
      rw [sortKeysMembers_keys]
      exact (keysOk_iff ms).1 h.1
    · rw [runiqMembers_iff]
      intro m hmem
      exact (runiqMembers_iff _).1 hm m (hperm.mem_iff.1 hmem)
termination_by sizeOf j
decreasing_by all_goals (subst_vars; first | exact sizeOf_snd_lt_cons _ _ | (simp <;> omega))

theorem runiqList_sortKeysList (xs : List Json) (h : runiqList xs = true) :
    runiqList (sortKeysList xs) = true := by
  cases xs with
  | nil => rfl
  | cons x rest =>
    rw [runiqList, Bool.and_eq_true] at h
    rw [sortKeysList, runiqList, Bool.and_eq_true]
    exact ⟨runiq_sortKeys x h.1, runiqList_sortKeysList rest h.2⟩
termination_by sizeOf xs
decreasing_by all_goals (subst_vars; first | exact sizeOf_snd_lt_cons _ _ | (simp <;> omega))

theorem runiqMembers_sortKeysMembers (ms : List (String × Json))
    (h : runiqMembers ms = true) : runiqMembers (sortKeysMembers ms) = true := by
  cases ms with
  | nil => rfl
  | cons m rest =>
    have h' : runiq m.2 = true ∧ runiqMembers rest = true := by
      obtain ⟨k, v⟩ := m
      rw [runiqMembers, Bool.and_eq_true] at h
      exact h
    have h1 : runiq (sortKeys m.2) = true := runiq_sortKeys m.2 h'.1
    have h2 : runiqMembers (sortKeysMembers rest) = true :=
      runiqMembers_sortKeysMembers rest h'.2
    show (runiq (sortKeys m.2) && runiqMembers (sortKeysMembers rest)) = true
    rw [h1, h2]
    rfl
termination_by sizeOf ms
decreasing_by all_goals (subst_vars; first | exact sizeOf_snd_lt_cons _ _ | (simp <;> omega))

end

mutual

theorem sortKeys_sortKeys (j : Json) : sortKeys (sortKeys j) = sortKeys j := by
  cases j with
  | null => rfl
  | bool b => rfl
  | num n => rfl
  | str s => rfl
  | arr xs =>
    simp only [sortKeys]
    exact congrArg Json.arr (sortKeysList_sortKeysList xs)
  | obj ms =>
    simp only [sortKeys]
    have hcomm : sortKeysMembers (List.insertionSort keyLe (sortKeysMembers ms)) =
        List.insertionSort keyLe (sortKeysMembers (sortKeysMembers ms)) := by
      rw [sortKeysMembers_eq_map (List.insertionSort keyLe (sortKeysMembers ms)),
        List.map_insertionSort keyLe keyLe (fun m => (m.1, sortKeys m.2)) (sortKeysMembers ms)
          (fun a _ b _ => Iff.rfl),
        sortKeysMembers_eq_map (sortKeysMembers ms)]
    rw [hcomm, sortKeysMembers_sortKeysMembers_eq ms]
    exact congrArg Json.obj ((List.sorted_insertionSort keyLe _).insertionSort_eq)
termination_by sizeOf j
decreasing_by all_goals (subst_vars; first | exact sizeOf_snd_lt_cons _ _ | (simp <;> omega))

theorem sortKeysList_sortKeysList (xs : List Json) :
    sortKeysList (sortKeysList xs) = sortKeysList xs := by
  cases xs with
  | nil => rfl
  | cons x rest =>
    rw [sortKeysList, sortKeysList, sortKeys_sortKeys x, sortKeysList_sortKeysList rest]
termination_by sizeOf xs
decreasing_by all_goals (subst_vars; first | exact sizeOf_snd_lt_cons _ _ | (simp <;> omega))

theorem sortKeysMembers_sortKeysMembers_eq (ms : List (String × Json)) :
    sortKeysMembers (sortKeysMembers ms) = sortKeysMembers ms := by
  cases ms with
  | nil => rfl
  | cons m rest =>
    have h1 := sortKeys_sortKeys m.2
    have h2 := sortKeysMembers_sortKeysMembers_eq rest
    show (m.1, sortKeys (sortKeys m.2)) :: sortKeysMembers (sortKeysMembers rest) =
      (m.1, sortKeys m.2) :: sortKeysMembers rest
    rw [h1, h2]
termination_by sizeOf ms
decreasing_by all_goals (subst_vars; first | exact sizeOf_snd_lt_cons _ _ | (simp <;> omega))

end

theorem loads_runiq {s : String} {j : Json} (h : json_loads s = some j) : runiq j = true := by
  rw [json_loads] at h
  split at h
  · rename_i j' rest heq
    split at h
    · have := (parse_runiq (s.toList.length + 1)).1 _ _ _ heq
      rwa [Option.some.inj h] at this
    · exact Option.noConfusion h
  · exact Option.noConfusion h

theorem loads_dumps {j : Json} (h : runiq j = true) :
    json_loads (json_dumps j) = some (sortKeys j) := by
  have hr : runiq (sortKeys j) = true := runiq_sortKeys j h
  have hskip : skipWs (serVal (sortKeys j) 0) = serVal (sortKeys j) 0 := by
    have h0 := skipWs_serVal (sortKeys j) 0 []
    rwa [List.append_nil] at h0
  have hc : pcost (sortKeys j) ≤ (serVal (sortKeys j) 0).length + 1 := by
    have := pcost_le_serVal (sortKeys j) 0
    omega
  have hp := (parse_ser ((serVal (sortKeys j) 0).length + 1)).1 (sortKeys j) 0 [] hr rfl hc
  rw [List.append_nil] at hp
  rw [json_dumps, json_loads, toList_asString, hskip, hp]
  rfl

/-- C7: `format_report` is idempotent on its own successful output — for every
input string whose JSON parse succeeds, applying `format_report` to the
formatted result re-parses and re-serializes to the identical string (stable
sorted key order, 4-space indentation): `format_report (format_report x) =
format_report x` whenever `json_loads x` succeeds. -/
theorem c7_format_idempotent (x : String) (j : Json) (h : json_loads x = some j) :
    format_report (format_report x) = format_report x := by
  have hr : runiq j = true := loads_runiq h
  have h1 : format_report x = json_dumps j := by
    rw [format_report, h]
  rw [h1, format_report, loads_dumps hr]
  show json_dumps (sortKeys j) = json_dumps j
  rw [json_dumps, json_dumps, sortKeys_sortKeys]

theorem c7_format_idempotent_witness :
    format_report (format_report "\x7b\"b\": 1, \"a\": 2\x7d") =
      format_report "\x7b\"b\": 1, \"a\": 2\x7d" :=
  c7_format_idempotent _ (Json.obj [("b", Json.num 1), ("a", Json.num 2)]) rfl
